import Mathlib

/-!
Verification of the redforecast snapshot-diff engine.

The Python values flowing through `compare_forecast_entries`
(`src/utils/update_history.py`) are JSON-like: null, NaN, strings, numbers,
lists and dicts.  We embed them as the mutual inductive family `Val` /
`ValList` / `ValFields` so every function below is structurally recursive and
kernel-reducible.  Dicts are ordered association lists (Python dicts preserve
insertion order).  Numbers are embedded as integers plus an explicit NaN
value; the claims never exercise non-integral floats.
-/

mutual

inductive Val where
  | vnull
  | vnan
  | vstr (s : String)
  | vint (n : Int)
  | vlist (xs : ValList)
  | vdict (fs : ValFields)

inductive ValList where
  | nil
  | cons (x : Val) (xs : ValList)

inductive ValFields where
  | nil
  | cons (k : String) (v : Val) (fs : ValFields)

end

open Val ValList ValFields

/-- Convert an embedded list to a Lean list. -/
def vlToList : ValList → List Val
  | .nil => []
  | .cons x xs => x :: vlToList xs

/-- Convert embedded dict fields to a Lean association list. -/
def vfToList : ValFields → List (String × Val)
  | .nil => []
  | .cons k v fs => (k, v) :: vfToList fs

/-- Build embedded dict fields from a Lean association list. -/
def vfOfList : List (String × Val) → ValFields
  | [] => .nil
  | (k, v) :: fs => .cons k v (vfOfList fs)

/-- Build an embedded list from a Lean list. -/
def vlOfList : List Val → ValList
  | [] => .nil
  | x :: xs => .cons x (vlOfList xs)

/-- First-occurrence lookup in dict fields, as Python dict indexing/`get`. -/
def getF : ValFields → String → Option Val
  | .nil, _ => none
  | .cons k v fs, key => if k == key then some v else getF fs key

/-- Python `d.get(key)` with a default. -/
def getFD (fs : ValFields) (key : String) (dflt : Val) : Val :=
  match getF fs key with
  | some v => v
  | none => dflt

/-- Key membership in dict fields. -/
def containsKeyF : ValFields → String → Bool
  | .nil, _ => false
  | .cons k _ fs, key => k == key || containsKeyF fs key

/-- The keys of dict fields, in order. -/
def keysF : ValFields → List String
  | .nil => []
  | .cons k _ fs => k :: keysF fs

/-- Python `d[key] = v`: replace the value in place if the key exists,
otherwise append the binding at the end. -/
def setKeyF : ValFields → String → Val → ValFields
  | .nil, key, v => .cons key v .nil
  | .cons k w fs, key, v =>
      if k == key then .cons k v fs else .cons k w (setKeyF fs key v)

/-- Python `d.get(key, dflt)` on an arbitrary value: non-dicts yield the
default (the source only ever calls `.get` on dicts). -/
def pyGetD (v : Val) (key : String) (dflt : Val) : Val :=
  match v with
  | .vdict fs => getFD fs key dflt
  | _ => dflt

/-- Key membership on an arbitrary value (false on non-dicts). -/
def containsKeyV (v : Val) (key : String) : Bool :=
  match v with
  | .vdict fs => containsKeyF fs key
  | _ => false

/-- Python `d[key] = v` on a dict value; identity on non-dicts. -/
def setKeyV (v : Val) (key : String) (w : Val) : Val :=
  match v with
  | .vdict fs => .vdict (setKeyF fs key w)
  | _ => v

/-- The items of a value that the source iterates as a list; non-lists give
the empty iteration. -/
def asListV : Val → List Val
  | .vlist xs => vlToList xs
  | _ => []

/-- Python truthiness of an optional record: `None` and empty containers are
falsy, as in `if opp1 and opp2:`. -/
def pyTruthy : Val → Bool
  | .vnull => false
  | .vnan => true
  | .vstr s => !(s == "")
  | .vint n => !(n == 0)
  | .vlist .nil => false
  | .vlist (.cons _ _) => true
  | .vdict .nil => false
  | .vdict (.cons _ _ _) => true

/-- Truthiness of a lookup result (`None` for a missing key). -/
def pyTruthyOpt : Option Val → Bool
  | none => false
  | some v => pyTruthy v

/-- pandas `pd.isna` on the scalar values the source feeds it: true exactly
for `None` and NaN. -/
def pdIsna : Val → Bool
  | .vnull => true
  | .vnan => true
  | _ => false

/-- A string is blank when every character is whitespace, mirroring
`value.strip() == ""`. -/
def isBlank (s : String) : Bool :=
  s.data.all (fun c => c.isWhitespace)

/-- The source's `is_empty`: `None`, blank strings, empty containers and NaN
are empty. -/
def is_empty : Val → Bool
  | .vnull => true
  | .vnan => true
  | .vstr s => isBlank s
  | .vint _ => false
  | .vlist .nil => true
  | .vlist (.cons _ _) => false
  | .vdict .nil => true
  | .vdict (.cons _ _ _) => false

/-- Character-list suffix test used for `key.endswith(...)`. -/
def listIsSuffix : List Char → List Char → Bool
  | [], _ => true
  | _ :: _, [] => false
  | s, l => if s.length == l.length then s == l else
      match l with
      | [] => false
      | _ :: l2 => listIsSuffix s l2

/-- String suffix test mirroring Python `str.endswith`. -/
def strEndsWith (s suffixStr : String) : Bool :=
  listIsSuffix suffixStr.data s.data

/-- The static deny-list of `should_exclude_field`. -/
def excluded_fields : List String :=
  ["PCC", "PE", "CPIS", "Design", "Tech", "Others",
   "PPCC", "PPE", "PCPS", "PCBE", "Pdesign", "PTech",
   "January", "February", "March", "April", "May", "June",
   "July", "August", "September", "October", "November", "December",
   "Q1", "Q2", "Q3", "Q4", "FY", "Next years",
   "Factories split", "Revenues by month",
   "id"]

/-- The source's `should_exclude_field`: deny-list membership or a name
ending in `_id` or `Id`. -/
def should_exclude_field (key : String) : Bool :=
  excluded_fields.contains key || strEndsWith key ("_id") || strEndsWith key ("Id")

/-- Every key of the first dict occurs in the second. -/
def keysSubF : ValFields → ValFields → Bool
  | .nil, _ => true
  | .cons k _ rest, fs2 => containsKeyF fs2 k && keysSubF rest fs2

mutual

/-- Python `==` on embedded values, structural on the first argument.
NaN compares unequal to everything, including itself; dict equality is
key-set based (order-insensitive). -/
def pyEq : Val → Val → Bool
  | .vnull, .vnull => true
  | .vnull, _ => false
  | .vnan, _ => false
  | .vstr a, .vstr b => a == b
  | .vstr _, _ => false
  | .vint a, .vint b => a == b
  | .vint _, _ => false
  | .vlist xs, .vlist ys => pyEqList xs ys
  | .vlist _, _ => false
  | .vdict fs1, .vdict fs2 => pyEqFieldsSub fs1 fs2 && keysSubF fs2 fs1
  | .vdict _, _ => false

/-- Pointwise Python `==` on lists. -/
def pyEqList : ValList → ValList → Bool
  | .nil, .nil => true
  | .nil, .cons _ _ => false
  | .cons _ _, .nil => false
  | .cons x xs, .cons y ys => pyEq x y && pyEqList xs ys

/-- Every binding of the first dict is matched with Python `==` in the
second. -/
def pyEqFieldsSub : ValFields → ValFields → Bool
  | .nil, _ => true
  | .cons k v rest, fs2 =>
      (match getF fs2 k with
       | some w => pyEq v w
       | none => false) && pyEqFieldsSub rest fs2

end

mutual

/-- Python `str()` of a non-string value (`repr` for nested items). -/
def pyRepr : Val → String
  | .vnull => "None"
  | .vnan => "nan"
  | .vstr s => "\x27" ++ s ++ "\x27"
  | .vint n => toString n
  | .vlist xs => "[" ++ pyReprList xs ++ "]"
  | .vdict fs => "\x7b" ++ pyReprFields fs ++ "\x7d"

/-- Comma-separated `repr` of list items. -/
def pyReprList : ValList → String
  | .nil => ""
  | .cons x .nil => pyRepr x
  | .cons x (.cons y ys) => pyRepr x ++ ", " ++ pyReprList (.cons y ys)

/-- Comma-separated `repr` of dict items. -/
def pyReprFields : ValFields → String
  | .nil => ""
  | .cons k v .nil => "\x27" ++ k ++ "\x27: " ++ pyRepr v
  | .cons k v (.cons k2 w fs) =>
      "\x27" ++ k ++ "\x27: " ++ pyRepr v ++ ", " ++ pyReprFields (.cons k2 w fs)

end

/-- Python `str()` as used by f-strings: strings render verbatim. -/
def pyStr : Val → String
  | .vstr s => s
  | v => pyRepr v

/-- Python `isinstance(v, (int, float))`; NaN is a float. -/
def isNum : Val → Bool
  | .vint _ => true
  | .vnan => true
  | _ => false

/-- Python subtraction `b - a` on numbers; NaN propagates. -/
def numSub (a b : Val) : Val :=
  match a, b with
  | .vint x, .vint y => .vint (y - x)
  | _, _ => .vnan

/-- Python `d > 0` on a number; false for NaN. -/
def numGtZero : Val → Bool
  | .vint n => n > 0
  | _ => false

/-- Field-name constant. -/
def kValue : String := "value"

/-- Field-name constant. -/
def kOldest : String := "oldest"

/-- Field-name constant. -/
def kNewest : String := "newest"

/-- Field-name constant. -/
def kDifference : String := "difference"

/-- Field-name constant. -/
def kId : String := "id"

/-- Field-name constant. -/
def kStatus : String := "status"

/-- Field-name constant. -/
def kExpl : String := "difference_explanation"

/-- Field-name constant. -/
def kStart : String := "Start"

/-- Field-name constant. -/
def kDuration : String := "Duration"

/-- Field-name constant. -/
def kClient : String := "Client"

/-- Field-name constant. -/
def kProjectName : String := "Project Name"

/-- Field-name constant. -/
def kTotalValue : String := "Total Value"

/-- Field-name constant. -/
def kForecasts : String := "forecasts"

/-- Field-name constant. -/
def kForecast : String := "forecast"

/-- Field-name constant. -/
def kOpportunities : String := "Opportunities"

/-- Field-name constant. -/
def kDate : String := "date"

/-- The annotation `{"value": v}` for an unchanged value. -/
def mkValue (v : Val) : Val :=
  .vdict (.cons kValue v .nil)

/-- The annotation `{"oldest": o, "newest": n, "difference": d}`. -/
def mkOND (o n d : Val) : Val :=
  .vdict (.cons kOldest o (.cons kNewest n (.cons kDifference d .nil)))

/-- The source's `annotate_diff`: equal values are wrapped as `{value}`,
unequal ones as `{oldest, newest, difference}` where the difference is the
numeric `n - o` for a numeric pair and otherwise the newest value. -/
def annotate_diff (v1 v2 : Val) : Val :=
  if pyEq v1 v2 then mkValue v1
  else mkOND v1 v2 (if isNum v1 && isNum v2 then numSub v1 v2 else v2)

/-- Whether `deep_annotate` received one of the special temporal field keys,
`key in ["Start", "Duration"]`. -/
def sdKey : Option String → Bool
  | some k => k == kStart || k == kDuration
  | none => false

/-- Closed form of `deep_annotate None o2 key` (the recursion never
re-enters itself from a missing older value). -/
def annNullLeft (o2 : Val) (key : Option String) : Val :=
  if sdKey key then
    if pdIsna o2 then mkValue .vnull else mkOND .vnull o2 o2
  else
    if is_empty o2 then mkValue .vnull else mkOND .vnull o2 o2

/-- Second pass of the dict branch of `deep_annotate`: keys only present in
the newer dict, paired with a missing older value.  The `seen` accumulator
models iterating a key set (each key once). -/
def annFields2 : ValFields → ValFields → List String → ValFields
  | .nil, _, _ => .nil
  | .cons k v rest, fs1, seen =>
      if seen.contains k || containsKeyF fs1 k || should_exclude_field k then
        annFields2 rest fs1 (k :: seen)
      else
        .cons k (annNullLeft v (some k)) (annFields2 rest fs1 (k :: seen))

/-- Tail of the list branch of `deep_annotate` once the older list is
exhausted: remaining newer items are paired with a missing older item. -/
def padLeftList : ValList → ValList
  | .nil => .nil
  | .cons y ys => .cons (annNullLeft y none) (padLeftList ys)

/-- Append of dict fields. -/
def appendF : ValFields → ValFields → ValFields
  | .nil, gs => gs
  | .cons k v fs, gs => .cons k v (appendF fs gs)

mutual

/-- The source's `deep_annotate(o1, o2, key)`.  The Python loop iterates
`set(o1) | set(o2)`; the set's unspecified iteration order is modeled
deterministically as: keys of the older dict in order, then keys only in the
newer dict in order (each key once, excluded keys skipped). -/
def deep_annotate (o1 o2 : Val) (key : Option String) : Val :=
  if sdKey key then
    if pdIsna o1 && pdIsna o2 then mkValue .vnull
    else if pdIsna o1 && !pdIsna o2 then mkOND o1 o2 o2
    else if pyEq o1 o2 || (!pdIsna o1 && pdIsna o2) then mkValue o1
    else annotate_diff o1 o2
  else if is_empty o1 && is_empty o2 then mkValue .vnull
  else
    match o1, o2 with
    | .vnull, .vnull => mkValue .vnull
    | .vnull, _ => mkOND .vnull o2 o2
    | _, .vnull => mkOND o1 .vnull .vnull
    | .vdict fs1, .vdict fs2 =>
        .vdict (appendF (annFields1 fs1 fs2 []) (annFields2 fs2 fs1 []))
    | .vlist xs, .vlist ys => mkValue (.vlist (annotateList xs ys))
    | _, _ => annotate_diff o1 o2

/-- First pass of the dict branch of `deep_annotate`: keys of the older
dict, each annotated against the newer dict's value for that key (missing
keys read as `None`, i.e. `o2.get(k)`). -/
def annFields1 : ValFields → ValFields → List String → ValFields
  | .nil, _, _ => .nil
  | .cons k v rest, fs2, seen =>
      if seen.contains k || should_exclude_field k then
        annFields1 rest fs2 (k :: seen)
      else
        .cons k (deep_annotate v (getFD fs2 k .vnull) (some k)) (annFields1 rest fs2 (k :: seen))

/-- The list branch of `deep_annotate`: positional annotation with the
shorter side padded with `None`. -/
def annotateList : ValList → ValList → ValList
  | .nil, ys => padLeftList ys
  | .cons x xs, .nil => .cons (deep_annotate x .vnull none) (annotateList xs .nil)
  | .cons x xs, .cons y ys => .cons (deep_annotate x y none) (annotateList xs ys)

end

mutual

/-- The source's `check_for_differences`: search for any sub-dict carrying
both `oldest` and `newest` keys. -/
def check_for_differences : Val → Bool
  | .vdict fs =>
      if containsKeyF fs kOldest && containsKeyF fs kNewest then true
      else checkDiffFields fs
  | .vlist xs => checkDiffList xs
  | _ => false

/-- `check_for_differences` over dict values. -/
def checkDiffFields : ValFields → Bool
  | .nil => false
  | .cons _ v fs => check_for_differences v || checkDiffFields fs

/-- `check_for_differences` over list items. -/
def checkDiffList : ValList → Bool
  | .nil => false
  | .cons x xs => check_for_differences x || checkDiffList xs

end

/-- One rendered line of `generate_difference_explanation` for a leaf
bearing `oldest`/`newest`. -/
def renderLine (path : List String) (oldV newV : Val) : String :=
  let fieldName := if path.isEmpty then "Field" else String.intercalate (".") path
  if isNum oldV && isNum newV then
    let d := numSub oldV newV
    if numGtZero d then
      fieldName ++ " increased from " ++ pyStr oldV ++ " to " ++ pyStr newV ++
        " (+" ++ pyStr d ++ ")"
    else
      fieldName ++ " decreased from " ++ pyStr oldV ++ " to " ++ pyStr newV ++
        " (" ++ pyStr d ++ ")"
  else
    fieldName ++ " changed from \x27" ++ pyStr oldV ++ "\x27 to \x27" ++ pyStr newV ++ "\x27"

mutual

/-- The source's `generate_difference_explanation`: renders one line per
leaf bearing `oldest`/`newest`, keyed by the dotted path, skipping the
`id`/`status`/`difference_explanation` keys. -/
def generate_difference_explanation : Val → List String → List String
  | .vdict fs, path =>
      if containsKeyF fs kOldest && containsKeyF fs kNewest then
        [renderLine path (getFD fs kOldest .vnull) (getFD fs kNewest .vnull)]
      else genExplFields fs path
  | .vlist xs, path => genExplList xs path 0
  | _, _ => []

/-- Explanation lines gathered over dict values. -/
def genExplFields : ValFields → List String → List String
  | .nil, _ => []
  | .cons k v fs, path =>
      if k == kId || k == kStatus || k == kExpl then genExplFields fs path
      else generate_difference_explanation v (path ++ [k]) ++ genExplFields fs path

/-- Explanation lines gathered over list items, rendering the index as
`[i]`. -/
def genExplList : ValList → List String → Nat → List String
  | .nil, _, _ => []
  | .cons x xs, path, i =>
      generate_difference_explanation x (path ++ ["[" ++ toString i ++ "]"]) ++
        genExplList xs path (i + 1)

end

/-- The source's `filter_excluded_fields`, on dict fields. -/
def filterExclF : ValFields → ValFields
  | .nil => .nil
  | .cons k v fs =>
      if should_exclude_field k then filterExclF fs else .cons k v (filterExclF fs)

/-- The source's `filter_excluded_fields` (non-dicts have no items). -/
def filter_excluded_fields (opp : Val) : ValFields :=
  match opp with
  | .vdict fs => filterExclF fs
  | _ => .nil

/-- The source's `create_composite_key`:
`f"{opp.get('Client', '')}__{opp.get('Project Name', '')}"`. -/
def create_composite_key (opp : Val) : String :=
  pyStr (pyGetD opp kClient (.vstr (""))) ++ "__" ++ pyStr (pyGetD opp kProjectName (.vstr ("")))

/-- Association-list lookup for the composite-key dictionaries. -/
def lookupL : List (String × Val) → String → Option Val
  | [], _ => none
  | (k, v) :: rest, key => if k == key then some v else lookupL rest key

/-- Key membership for the composite-key dictionaries. -/
def containsKeyL : List (String × Val) → String → Bool
  | [], _ => false
  | (k, _) :: rest, key => k == key || containsKeyL rest key

/-- Python `d[key] = v` on the composite-key dictionaries. -/
def setKeyL : List (String × Val) → String → Val → List (String × Val)
  | [], key, v => [(key, v)]
  | (k, w) :: rest, key, v =>
      if k == key then (k, v) :: rest else (k, w) :: setKeyL rest key v

/-- The dict comprehension `{create_composite_key(opp): opp for opp in ...}`:
on a duplicate composite key the later record wins. -/
def buildOpps (opps : List Val) : List (String × Val) :=
  opps.foldl (fun acc opp => setKeyL acc (create_composite_key opp) opp) []

/-- `set(opps1) | set(opps2)`: the set's unspecified iteration order is
modeled deterministically as keys of the first dict, then keys only in the
second. -/
def allKeysL (opps1 opps2 : List (String × Val)) : List String :=
  opps1.map Prod.fst ++ (opps2.map Prod.fst).filter (fun k => !containsKeyL opps1 k)

/-- `o.get(key, dflt)` on an optional record. -/
def oGetD (o : Option Val) (key : String) (dflt : Val) : Val :=
  match o with
  | some v => pyGetD v key dflt
  | none => dflt

/-- Python `{**base, **fields}` tail: each binding is assigned in order. -/
def spreadF (acc : ValFields) : ValFields → ValFields
  | .nil => acc
  | .cons k v fs => spreadF (setKeyF acc k v) fs

/-- The Deleted/New record literal
`{"id": ..., "status": ..., "difference_explanation": ..., **filtered}`. -/
def mkStatusRecord (idv : Val) (statusStr explStr : String) (filtered : ValFields) : Val :=
  .vdict (spreadF (.cons kId idv (.cons kStatus (.vstr statusStr)
    (.cons kExpl (.vstr explStr) .nil))) filtered)

/-- The `id` re-added to an annotated record:
`opp2.get('id', opp1.get('id', ''))`. -/
def pickId (opp1 opp2 : Val) : Val :=
  if containsKeyV opp2 kId then pyGetD opp2 kId .vnull
  else if containsKeyV opp1 kId then pyGetD opp1 kId .vnull
  else .vstr ("")

/-- The body of the per-key loop of `compare_forecast_entries`: `none` means
the key contributes no record (a `continue`, or neither side truthy). -/
def processKey (opps1 opps2 : List (String × Val)) (date1 date2 : String)
    (k : String) : Option Val :=
  let opp1? := lookupL opps1 k
  let opp2? := lookupL opps2 k
  if pyTruthyOpt opp1? && pyEq (oGetD opp1? kTotalValue .vnull) (.vstr ("0")) then
    none
  else if pyTruthyOpt opp1? && pyTruthyOpt opp2? then
    let opp1 := opp1?.getD .vnull
    let opp2 := opp2?.getD .vnull
    if pdIsna (pyGetD opp1 kStart .vnull) && pdIsna (pyGetD opp2 kStart .vnull) &&
        pdIsna (pyGetD opp1 kDuration .vnull) && pdIsna (pyGetD opp2 kDuration .vnull) then
      none
    else
      let ann1 := setKeyV (deep_annotate opp1 opp2 none) kId (pickId opp1 opp2)
      if check_for_differences ann1 then
        let ann2 := setKeyV ann1 kStatus (.vstr ("Modified"))
        let lines := generate_difference_explanation ann2 []
        let explStr := if lines.isEmpty then "No specific differences found"
          else String.intercalate ("\n") lines
        some (setKeyV ann2 kExpl (.vstr explStr))
      else
        some (setKeyV ann1 kStatus (.vstr ("Unchanged")))
  else if pyTruthyOpt opp1? then
    let opp1 := opp1?.getD .vnull
    some (mkStatusRecord (pyGetD opp1 kId (.vstr (""))) ("Deleted")
      ("This opportunity was present in " ++ date1 ++ " but removed in " ++ date2)
      (filter_excluded_fields opp1))
  else if pyTruthyOpt opp2? then
    let opp2 := opp2?.getD .vnull
    some (mkStatusRecord (pyGetD opp2 kId (.vstr (""))) ("New")
      ("This is a new opportunity added in " ++ date2)
      (filter_excluded_fields opp2))
  else
    none

/-- `opp.get("status") in ["Modified", "New", "Deleted"]`. -/
def statusIsDiff (r : Val) : Bool :=
  let s := pyGetD r kStatus .vnull
  pyEq s (.vstr ("Modified")) || pyEq s (.vstr ("New")) || pyEq s (.vstr ("Deleted"))

/-- The final output filter of `compare_forecast_entries`: drop Unchanged
records when any record is Modified/New/Deleted, otherwise keep all. -/
def outputFilter (anns : List Val) : List Val :=
  if anns.any statusIsDiff then
    anns.filter (fun r => !pyEq (pyGetD r kStatus .vnull) (.vstr ("Unchanged")))
  else anns

/-- An empty Python dict as a `get` default. -/
def emptyDict : Val := .vdict .nil

/-- The record collection selected for one date:
`data.get("forecasts", {}).get(date, {}).get("forecast", {})`. -/
def selectForecast (data : Val) (date : String) : Val :=
  pyGetD (pyGetD (pyGetD data kForecasts emptyDict) date emptyDict) kForecast emptyDict

/-- The composite-key dictionary built for one date's record collection. -/
def selectOpps (data : Val) (date : String) : List (String × Val) :=
  buildOpps (asListV (pyGetD (selectForecast data date) kOpportunities (.vlist .nil)))

/-- The source's `compare_forecast_entries(data, date1, date2)`. -/
def compare_forecast_entries (data : Val) (date1 date2 : String) : List Val :=
  let opps1 := selectOpps data date1
  let opps2 := selectOpps data date2
  outputFilter ((allKeysL opps1 opps2).filterMap (processKey opps1 opps2 date1 date2))

/-- Byte-wise (code-point) lexicographic order on strings, mirroring the
SQLite BINARY collation used to compare `fdate` text. -/
def charListLe : List Char → List Char → Bool
  | [], _ => true
  | _ :: _, [] => false
  | a :: as, b :: bs =>
      if a.toNat < b.toNat then true
      else if b.toNat < a.toNat then false
      else charListLe as bs

/-- String comparison used for snapshot dates. -/
def strLeB (a b : String) : Bool :=
  charListLe a.data b.data

/-- `SELECT fdate FROM forecast WHERE fdate <= ? ORDER BY fdate DESC LIMIT 1`:
the maximum stored date at or before the target, or `None`. -/
def closestBackward : List String → String → Option String
  | [], _ => none
  | d :: ds, target =>
      let r := closestBackward ds target
      if strLeB d target then
        match r with
        | none => some d
        | some b => if strLeB b d then some d else some b
      else r

/-- `SELECT fdate FROM forecast WHERE fdate >= ? ORDER BY fdate ASC LIMIT 1`:
the minimum stored date at or after the target, or `None`. -/
def closestForward : List String → String → Option String
  | [], _ => none
  | d :: ds, target =>
      let r := closestForward ds target
      if strLeB target d then
        match r with
        | none => some d
        | some b => if strLeB d b then some d else some b
      else r

/-- The source's `get_closest_dates(conn, date1, date2)`; the forecast table
is modeled as an association list from `fdate` to the parsed `json_data`. -/
def get_closest_dates (store : List (String × Val)) (date1 date2 : String) :
    Option String × Option String :=
  (closestBackward (store.map Prod.fst) date1, closestForward (store.map Prod.fst) date2)

/-- One side of the response of `compare_forecast_dates`: the forecast row
for a resolved date is added under that date; an unresolved (`None`) date
matches no row and adds nothing. -/
def addSide (acc : List (String × Val)) (store : List (String × Val))
    (c : Option String) : List (String × Val) :=
  match c with
  | none => acc
  | some d =>
      match lookupL store d with
      | none => acc
      | some fc => setKeyL acc d (.vdict (.cons kDate (.vstr d) (.cons kForecast fc .nil)))

/-- The source's `compare_forecast_dates` (`src/src/mcptools/mcptools.py`):
resolve both dates, fetch whichever rows exist, and return
`{"forecasts": {...}}`; `json.dumps` is modeled as the identity on the
structured value. -/
def compare_forecast_dates (store : List (String × Val)) (date1 date2 : String) : Val :=
  let c := get_closest_dates store date1 date2
  .vdict (.cons kForecasts (.vdict (vfOfList (addSide (addSide [] store c.1) store c.2))) .nil)

/-- Dict-field keys are pairwise distinct (guaranteed for real Python
dicts). -/
def nodupKeysB : ValFields → Bool
  | .nil => true
  | .cons k _ fs => !containsKeyF fs k && nodupKeysB fs

mutual

/-- Well-formed data value: no NaN anywhere, every mapping has distinct keys
and no mapping carries both literal keys `oldest` and `newest` (which would
collide with the annotation markers). -/
def wfVal : Val → Bool
  | .vnull => true
  | .vnan => false
  | .vstr _ => true
  | .vint _ => true
  | .vlist xs => wfList xs
  | .vdict fs =>
      nodupKeysB fs && !(containsKeyF fs kOldest && containsKeyF fs kNewest) && wfFields fs

/-- Well-formedness of list items. -/
def wfList : ValList → Bool
  | .nil => true
  | .cons x xs => wfVal x && wfList xs

/-- Well-formedness of dict values. -/
def wfFields : ValFields → Bool
  | .nil => true
  | .cons _ v fs => wfVal v && wfFields fs

end

/-- The keys whose values are raw diff payloads rather than nested
annotations. -/
def boundaryKey (k : String) : Bool :=
  k == kValue || k == kOldest || k == kNewest || k == kDifference

/-- The keys `compare_forecast_entries` adds to an output record. -/
def specialKey (k : String) : Bool :=
  k == kId || k == kStatus || k == kExpl

mutual

/-- Every key of an annotation tree reached without crossing a payload
boundary (`value`/`oldest`/`newest`/`difference`) is non-excluded. -/
def annOkVal : Val → Bool
  | .vdict fs => annOkFields fs
  | .vlist xs => annOkList xs
  | _ => true

/-- Annotation-key check over dict fields. -/
def annOkFields : ValFields → Bool
  | .nil => true
  | .cons k v fs =>
      (if boundaryKey k then true else !should_exclude_field k && annOkVal v) &&
        annOkFields fs

/-- Annotation-key check over list items. -/
def annOkList : ValList → Bool
  | .nil => true
  | .cons x xs => annOkVal x && annOkList xs

end

/-- Every top-level key of an output record is one of the added special keys
or a non-excluded field name. -/
def outKeysOkF : ValFields → Bool
  | .nil => true
  | .cons k _ fs => (specialKey k || !should_exclude_field k) && outKeysOkF fs

/-- Top-level key check on an output record. -/
def outKeysOk (v : Val) : Bool :=
  match v with
  | .vdict fs => outKeysOkF fs
  | _ => false

/-- Annotation-key check on an output record, allowing the added special
keys at the top level. -/
def outAnnOkF : ValFields → Bool
  | .nil => true
  | .cons k v fs =>
      (if specialKey k then true
       else if boundaryKey k then true
       else !should_exclude_field k && annOkVal v) && outAnnOkF fs

/-- Annotation-key check on an output record. -/
def outAnnOk (v : Val) : Bool :=
  match v with
  | .vdict fs => outAnnOkF fs
  | _ => false

mutual

/-- Whether an excluded field name occurs as a dict key anywhere in a
value. -/
def hasExclKeyDeep : Val → Bool
  | .vdict fs => hasExclFsDeep fs
  | .vlist xs => hasExclLsDeep xs
  | _ => false

/-- Excluded-key search over dict fields. -/
def hasExclFsDeep : ValFields → Bool
  | .nil => false
  | .cons k v fs => should_exclude_field k || hasExclKeyDeep v || hasExclFsDeep fs

/-- Excluded-key search over list items. -/
def hasExclLsDeep : ValList → Bool
  | .nil => false
  | .cons x xs => hasExclKeyDeep x || hasExclLsDeep xs

end

/-- Whether an excluded field name occurs as a key anywhere in an output
record, exempting only the literal top-level `id` key. -/
def recordHasExcl (v : Val) : Bool :=
  match v with
  | .vdict fs => hasExclNonIdF fs
  | _ => false
where
  hasExclNonIdF : ValFields → Bool
    | .nil => false
    | .cons k w fs =>
        (should_exclude_field k && !(k == kId)) || hasExclKeyDeep w || hasExclNonIdF fs

/-- The condition under which the per-key loop of `compare_forecast_entries`
drops a key when both snapshots are the same collection: missing or falsy
record, the Total-Value-is-"0" skip, or Start and Duration both missing
(pandas `isna`) on both (identical) sides. -/
def selfSkip (opps : List (String × Val)) (k : String) : Bool :=
  match lookupL opps k with
  | none => true
  | some o =>
      !pyTruthy o || pyEq (pyGetD o kTotalValue .vnull) (.vstr ("0")) ||
        (pdIsna (pyGetD o kStart .vnull) && pdIsna (pyGetD o kDuration .vnull))

/-- Build a record from an association list. -/
def mkOpp (fs : List (String × Val)) : Val := .vdict (vfOfList fs)

/-- Build the `compare_forecast_entries` input for two dates and two record
collections, with the shape produced by `get_forecast`. -/
def mkPairData (d1 d2 : String) (ops1 ops2 : List Val) : Val :=
  .vdict (vfOfList [(kForecasts, .vdict (vfOfList
    [(d1, .vdict (vfOfList [(kDate, .vstr d1),
       (kForecast, .vdict (vfOfList [(kOpportunities, .vlist (vlOfList ops1))]))])),
     (d2, .vdict (vfOfList [(kDate, .vstr d2),
       (kForecast, .vdict (vfOfList [(kOpportunities, .vlist (vlOfList ops2))]))]))]))])

/-- Older record of the spec's worked example (all values are strings). -/
def oppOld8 : Val := mkOpp [(kClient, .vstr ("A")), (kProjectName, .vstr ("X")),
  (kStart, .vstr ("")), (kDuration, .vstr ("")), (kTotalValue, .vstr ("100"))]

/-- Newer record of the spec's worked example. -/
def oppNew8 : Val := mkOpp [(kClient, .vstr ("A")), (kProjectName, .vstr ("X")),
  (kStart, .vstr ("March")), (kDuration, .vstr ("3")), (kTotalValue, .vstr ("150"))]

/-- Input data for the spec's worked example. -/
def data8 : Val := mkPairData ("2025-06-01") ("2025-06-07") [oppOld8] [oppNew8]

/-- A record whose Start and Duration are blank strings (empty per the
spec's emptiness definition, but not pandas-missing). -/
def opp5 : Val := mkOpp [(kClient, .vstr ("A")), (kProjectName, .vstr ("P")),
  (kStart, .vstr ("")), (kDuration, .vstr ("")), (kTotalValue, .vstr ("5"))]

/-- Input with the blank-Start/Duration record on both sides. -/
def dataC5 : Val := mkPairData ("2025-06-01") ("2025-06-07") [opp5] [opp5]

/-- A record carrying an excluded key (`foo_id`) inside a nested mapping. -/
def opp6 : Val := mkOpp [(kClient, .vstr ("A")), (kProjectName, .vstr ("P")),
  (kStart, .vstr ("x")),
  (("Sub"), .vdict (vfOfList [(("foo_id"), .vint 1), (("note"), .vstr ("n"))]))]

/-- Input whose older side has the nested-excluded-key record and whose
newer side is empty, so the record comes out Deleted. -/
def dataC6 : Val := mkPairData ("2025-06-01") ("2025-06-07") [opp6] []

/-- A record with `Total Value` the string `"0"`. -/
def oppTV0 : Val := mkOpp [(kClient, .vstr ("A")), (kProjectName, .vstr ("P")),
  (kStart, .vstr ("x")), (kTotalValue, .vstr ("0"))]

/-- Self-diff input whose only record is skipped by the Total-Value rule. -/
def dataC1cex : Val := mkPairData ("2025-06-01") ("2025-06-07") [oppTV0] [oppTV0]

/-- Input for the Total-Value skip rule: the older record has the zero
marker, the newer record differs arbitrarily. -/
def dataC4w : Val := mkPairData ("2025-06-01") ("2025-06-07") [oppTV0]
  [mkOpp [(kClient, .vstr ("A")), (kProjectName, .vstr ("P")),
    (kStart, .vstr ("y")), (kTotalValue, .vstr ("700"))]]

/-- A record whose Start and Duration are absent (pandas-missing). -/
def opp5w : Val := mkOpp [(kClient, .vstr ("A")), (kProjectName, .vstr ("P")),
  (kTotalValue, .vstr ("5"))]

/-- Input with the missing-Start/Duration record on both sides. -/
def dataC5w : Val := mkPairData ("2025-06-01") ("2025-06-07") [opp5w] [opp5w]

/-- A simple well-formed record collection for witnesses. -/
def oppW1 : Val := mkOpp [(kClient, .vstr ("A")), (kProjectName, .vstr ("P")),
  (kStart, .vstr ("March")), (kTotalValue, .vstr ("100"))]

/-- Singleton well-formed collection. -/
def collW1 : List Val := [oppW1]

/-- Stored snapshots used for the resolver example. -/
def cstore : List (String × Val) :=
  [(("2025-05-30"), emptyDict), (("2025-06-05"), emptyDict)]

/-- A store whose only snapshot lies after both requested dates. -/
def store9 : List (String × Val) :=
  [(("2025-07-01"), .vdict (vfOfList [(kOpportunities, .vlist .nil)]))]

/-- Python `isinstance(v, dict)`. -/
def isDict : Val → Bool
  | .vdict _ => true
  | _ => false

/-- Python `isinstance(v, list)`. -/
def isList : Val → Bool
  | .vlist _ => true
  | _ => false

/-- Positional pairing of two lists, the shorter side padded with `None`. -/
def padZip : List Val → List Val → List (Val × Val)
  | [], [] => []
  | [], y :: ys => (Val.vnull, y) :: padZip [] ys
  | x :: xs, [] => (x, Val.vnull) :: padZip xs []
  | x :: xs, y :: ys => (x, y) :: padZip xs ys

deriving instance DecidableEq for Val

/-! Supporting lemmas. -/

theorem getF_eq_none_of_not_contains :
    ∀ (fs : ValFields) (k : String), containsKeyF fs k = false → getF fs k = none
  | .nil, _, _ => rfl
  | .cons k2 v rest, k, h => by
      simp [containsKeyF] at h
      simp [getF, h.1, getF_eq_none_of_not_contains rest k h.2]

theorem pyGetD_not_contains (v : Val) (k : String) (d : Val)
    (h : containsKeyV v k = false) : pyGetD v k d = d := by
  cases v <;> simp [pyGetD]
  case vdict fs =>
    simp [containsKeyV] at h
    simp [getFD, getF_eq_none_of_not_contains fs k h]

theorem filterMap_drop (f : String → Option Val) (k : String) (h : f k = none)
    (l : List String) :
    l.filterMap f = (l.filter (fun x => !(x == k))).filterMap f := by
  induction l with
  | nil => rfl
  | cons x xs ih =>
      by_cases hx : x = k
      · subst hx
        simp [List.filterMap_cons, List.filter_cons, h, ih]
      · have hbx : (x == k) = false := by simp [hx]
        simp only [List.filterMap_cons, List.filter_cons, hbx, Bool.not_false, if_pos]
        cases hfx : f x <;> simp [hfx, ih]

/-- C10: `compare_forecast_entries` selects the two record collections by
exact key lookup of `data["forecasts"]`; a requested date that is not an
exact key yields an empty collection rather than an error, and when neither
date is a key the function returns the empty list. -/
theorem c10_exact_key_lookup (data : Val) (date1 date2 : String)
    (h1 : containsKeyV (pyGetD data kForecasts emptyDict) date1 = false)
    (h2 : containsKeyV (pyGetD data kForecasts emptyDict) date2 = false) :
    selectOpps data date1 = [] ∧ selectOpps data date2 = [] ∧
    compare_forecast_entries data date1 date2 = [] := by
  have e1 : selectOpps data date1 = [] := by
    unfold selectOpps selectForecast
    rw [pyGetD_not_contains _ _ _ h1]
    rfl
  have e2 : selectOpps data date2 = [] := by
    unfold selectOpps selectForecast
    rw [pyGetD_not_contains _ _ _ h2]
    rfl
  refine ⟨e1, e2, ?_⟩
  unfold compare_forecast_entries
  rw [e1, e2]
  rfl

/-- Witness for `c10_exact_key_lookup` at a concrete input. -/
theorem c10_witness :
    containsKeyV (pyGetD emptyDict kForecasts emptyDict) ("2025-06-01") = false ∧
    compare_forecast_entries emptyDict ("2025-06-01") ("2025-06-07") = [] :=
  ⟨by decide,
   (c10_exact_key_lookup emptyDict ("2025-06-01") ("2025-06-07")
     (by decide) (by decide)).2.2⟩

theorem pyTruthy_of_total_value (o : Val)
    (htv : pyGetD o kTotalValue .vnull = .vstr ("0")) : pyTruthy o = true := by
  cases o <;> simp [pyGetD] at htv ⊢
  case vdict fs =>
    cases fs with
    | nil => simp [getFD, getF] at htv
    | cons k v rest => simp [pyTruthy]

/-- C4: a composite key whose older record exists with `"Total Value"` equal
to the string `"0"` contributes nothing to the per-key loop and is
discarded entirely from the diff result, regardless of the newer record. -/
theorem c4_total_value_zero_skip (data : Val) (date1 date2 : String) (k : String) (o : Val)
    (hlk : lookupL (selectOpps data date1) k = some o)
    (htv : pyGetD o kTotalValue .vnull = .vstr ("0")) :
    processKey (selectOpps data date1) (selectOpps data date2) date1 date2 k = none ∧
    compare_forecast_entries data date1 date2 =
      outputFilter (((allKeysL (selectOpps data date1) (selectOpps data date2)).filter
        (fun x => !(x == k))).filterMap
          (processKey (selectOpps data date1) (selectOpps data date2) date1 date2)) := by
  have htr : pyTruthy o = true := pyTruthy_of_total_value o htv
  have hnone :
      processKey (selectOpps data date1) (selectOpps data date2) date1 date2 k = none := by
    unfold processKey
    rw [hlk]
    simp [pyTruthyOpt, htr, oGetD, htv, pyEq]
  refine ⟨hnone, ?_⟩
  show outputFilter
      ((allKeysL (selectOpps data date1) (selectOpps data date2)).filterMap
        (processKey (selectOpps data date1) (selectOpps data date2) date1 date2)) = _
  rw [filterMap_drop _ _ hnone
    (allKeysL (selectOpps data date1) (selectOpps data date2))]

/-- Witness for `c4_total_value_zero_skip` at a concrete input. -/
theorem c4_witness :
    lookupL (selectOpps dataC4w ("2025-06-01")) ("A__P") = some oppTV0 ∧
    processKey (selectOpps dataC4w ("2025-06-01")) (selectOpps dataC4w ("2025-06-07"))
      ("2025-06-01") ("2025-06-07") ("A__P") = none :=
  ⟨by decide,
   (c4_total_value_zero_skip dataC4w ("2025-06-01") ("2025-06-07") ("A__P") oppTV0
     (by decide) (by decide)).1⟩

/-- Counterexample to C5: a record whose Start and Duration are blank
strings — empty per the spec's emptiness definition — on both sides is NOT
discarded; the key survives and the record is returned. -/
theorem c5_counterexample :
    is_empty (pyGetD opp5 kStart .vnull) = true ∧
    is_empty (pyGetD opp5 kDuration .vnull) = true ∧
    (compare_forecast_entries dataC5 ("2025-06-01") ("2025-06-07")).length = 1 :=
  ⟨by decide, by decide, by decide⟩

/-- C5 as amended: the skip applies only when Start and Duration are
pandas-missing (`None`/NaN, `pd.isna`) in both records, not under the
spec's broader emptiness notion; such a key is discarded entirely from the
diff result. -/
theorem c5_both_temporal_missing_skip (data : Val) (date1 date2 : String) (k : String)
    (o n : Val)
    (h1 : lookupL (selectOpps data date1) k = some o)
    (h2 : lookupL (selectOpps data date2) k = some n)
    (ht1 : pyTruthy o = true) (ht2 : pyTruthy n = true)
    (htv : pyEq (pyGetD o kTotalValue .vnull) (.vstr ("0")) = false)
    (hs1 : pdIsna (pyGetD o kStart .vnull) = true)
    (hs2 : pdIsna (pyGetD n kStart .vnull) = true)
    (hd1 : pdIsna (pyGetD o kDuration .vnull) = true)
    (hd2 : pdIsna (pyGetD n kDuration .vnull) = true) :
    processKey (selectOpps data date1) (selectOpps data date2) date1 date2 k = none ∧
    compare_forecast_entries data date1 date2 =
      outputFilter (((allKeysL (selectOpps data date1) (selectOpps data date2)).filter
        (fun x => !(x == k))).filterMap
          (processKey (selectOpps data date1) (selectOpps data date2) date1 date2)) := by
  have hnone :
      processKey (selectOpps data date1) (selectOpps data date2) date1 date2 k = none := by
    unfold processKey
    rw [h1, h2]
    simp [pyTruthyOpt, ht1, ht2, oGetD, htv, hs1, hs2, hd1, hd2]
  refine ⟨hnone, ?_⟩
  show outputFilter
      ((allKeysL (selectOpps data date1) (selectOpps data date2)).filterMap
        (processKey (selectOpps data date1) (selectOpps data date2) date1 date2)) = _
  rw [filterMap_drop _ _ hnone
    (allKeysL (selectOpps data date1) (selectOpps data date2))]

/-- Witness for `c5_both_temporal_missing_skip` at a concrete input. -/
theorem c5_witness :
    lookupL (selectOpps dataC5w ("2025-06-01")) ("A__P") = some opp5w ∧
    processKey (selectOpps dataC5w ("2025-06-01")) (selectOpps dataC5w ("2025-06-07"))
      ("2025-06-01") ("2025-06-07") ("A__P") = none :=
  ⟨by decide,
   (c5_both_temporal_missing_skip dataC5w ("2025-06-01") ("2025-06-07") ("A__P") opp5w opp5w
     (by decide) (by decide) (by decide) (by decide) (by decide)
     (by decide) (by decide) (by decide) (by decide)).1⟩

/-- Counterexample to C2: with the spec's emptiness notion, the
Start/Duration clauses fail on blank strings.  Two blank (empty) values
yield `{value: ""}` rather than `{value: null}`, and a non-empty older value
against a blank newer value yields a reported difference rather than
`{value: o}`. -/
theorem c2_counterexample :
    is_empty (.vstr ("")) = true ∧
    deep_annotate (.vstr ("")) (.vstr ("")) (some kStart) = mkValue (.vstr ("")) ∧
    mkValue (.vstr ("")) ≠ mkValue .vnull ∧
    is_empty (.vstr ("March")) = false ∧
    deep_annotate (.vstr ("March")) (.vstr ("")) (some kStart) =
      mkOND (.vstr ("March")) (.vstr ("")) (.vstr ("")) ∧
    mkOND (.vstr ("March")) (.vstr ("")) (.vstr ("")) ≠ mkValue (.vstr ("March")) :=
  ⟨by decide, by decide, by decide, by decide, by decide, by decide⟩

/-- C2 as amended: for the Start/Duration keys, "empty" means pandas-missing
(`pd.isna`: `None`/NaN).  Both missing gives `{value: null}`; older missing
and newer present gives `{oldest, newest, difference: n}`; equal values, or
older present and newer missing, give `{value: o}` (newer missingness is not
reported); otherwise the standard leaf diff applies.  Consequently swapping
the arguments does not in general swap `oldest`/`newest` in the result, as
the final concrete conjuncts exhibit. -/
theorem c2_start_duration_rule (o n : Val) (key : Option String)
    (hsd : sdKey key = true) :
    ((pdIsna o && pdIsna n) = true → deep_annotate o n key = mkValue .vnull) ∧
    (pdIsna o = true → pdIsna n = false → deep_annotate o n key = mkOND o n n) ∧
    (pdIsna o = false → (pyEq o n || pdIsna n) = true → deep_annotate o n key = mkValue o) ∧
    (pdIsna o = false → pdIsna n = false → pyEq o n = false →
      deep_annotate o n key = annotate_diff o n) ∧
    deep_annotate (.vstr ("March")) .vnull (some kStart) = mkValue (.vstr ("March")) ∧
    deep_annotate .vnull (.vstr ("March")) (some kStart) =
      mkOND .vnull (.vstr ("March")) (.vstr ("March")) ∧
    mkValue (.vstr ("March")) ≠ mkOND (.vstr ("March")) .vnull (.vstr ("March")) := by
  refine ⟨?_, ?_, ?_, ?_, by decide, by decide, by decide⟩
  · intro h
    simp only [Bool.and_eq_true] at h
    unfold deep_annotate
    simp [hsd, h.1, h.2]
  · intro h1 h2
    unfold deep_annotate
    simp [hsd, h1, h2]
  · intro h1 h2
    unfold deep_annotate
    simp only [hsd, if_true, h1, Bool.false_and, Bool.and_false, if_false,
      Bool.not_false, Bool.true_and, h2]
    simp [h1]
  · intro h1 h2 h3
    unfold deep_annotate
    simp [hsd, h1, h2, h3]

/-- Witness for `c2_start_duration_rule` at a concrete input. -/
theorem c2_witness :
    sdKey (some kDuration) = true ∧
    deep_annotate .vnan (.vint 3) (some kDuration) = mkOND .vnan (.vint 3) (.vint 3) :=
  ⟨by decide,
   (c2_start_duration_rule .vnan (.vint 3) (some kDuration) (by decide)).2.1
     (by decide) (by decide)⟩

theorem charListLe_refl : ∀ l, charListLe l l = true
  | [] => rfl
  | a :: as => by simp [charListLe, charListLe_refl as]

theorem strLeB_refl (s : String) : strLeB s s = true :=
  charListLe_refl _

theorem charListLe_total : ∀ l1 l2, charListLe l1 l2 = false → charListLe l2 l1 = true
  | [], _, h => by simp [charListLe] at h
  | _ :: _, [], _ => rfl
  | a :: as, b :: bs, h => by
      unfold charListLe at h ⊢
      by_cases hab : a.toNat < b.toNat
      · simp [hab] at h
      · by_cases hba : b.toNat < a.toNat
        · simp [hba]
        · simp [hab, hba] at h ⊢
          exact charListLe_total as bs h

theorem strLeB_total (a b : String) (h : strLeB a b = false) : strLeB b a = true :=
  charListLe_total _ _ h

theorem charListLe_trans :
    ∀ l1 l2 l3, charListLe l1 l2 = true → charListLe l2 l3 = true →
      charListLe l1 l3 = true
  | [], _, _, _, _ => rfl
  | _ :: _, [], _, h12, _ => by simp [charListLe] at h12
  | _ :: _, _ :: _, [], _, h23 => by simp [charListLe] at h23
  | a :: as, b :: bs, c :: cs, h12, h23 => by
      unfold charListLe at h12 h23 ⊢
      by_cases hab : a.toNat < b.toNat
      · by_cases hbc : b.toNat < c.toNat
        · have hac : a.toNat < c.toNat := by omega
          simp [hac]
        · by_cases hcb : c.toNat < b.toNat
          · simp [hbc, hcb] at h23
          · have hac : a.toNat < c.toNat := by omega
            simp [hac]
      · by_cases hba : b.toNat < a.toNat
        · simp [hab, hba] at h12
        · simp [hab, hba] at h12
          by_cases hbc : b.toNat < c.toNat
          · have hac : a.toNat < c.toNat := by omega
            simp [hac]
          · by_cases hcb : c.toNat < b.toNat
            · simp [hbc, hcb] at h23
            · simp [hbc, hcb] at h23
              have hac1 : ¬ a.toNat < c.toNat := by omega
              have hac2 : ¬ c.toNat < a.toNat := by omega
              simp [hac1, hac2]
              exact charListLe_trans as bs cs h12 h23

theorem strLeB_trans (a b c : String) (h1 : strLeB a b = true) (h2 : strLeB b c = true) :
    strLeB a c = true :=
  charListLe_trans _ _ _ h1 h2

theorem closestBackward_none_iff (ds : List String) (t : String) :
    closestBackward ds t = none ↔ ∀ x ∈ ds, strLeB x t = false := by
  induction ds with
  | nil => simp [closestBackward]
  | cons d ds ih =>
      constructor
      · intro h
        by_cases hdt : strLeB d t = true
        · exfalso
          simp only [closestBackward, hdt, if_true] at h
          cases hr : closestBackward ds t with
          | none => rw [hr] at h; exact Option.noConfusion h
          | some b => rw [hr] at h; by_cases hb : strLeB b d = true <;> simp [hb] at h
        · intro x hx
          rcases List.mem_cons.mp hx with rfl | hx2
          · exact Bool.eq_false_iff.mpr hdt
          · have : closestBackward ds t = none := by
              simp only [closestBackward, hdt, if_false] at h
              simpa using h
            exact (ih.mp this) x hx2
      · intro h
        have hd : strLeB d t = false := h d (List.mem_cons_self d ds)
        have hrest : closestBackward ds t = none :=
          ih.mpr (fun x hx => h x (List.mem_cons_of_mem d hx))
        simp [closestBackward, hd, hrest]

theorem closestBackward_spec (ds : List String) (t : String) :
    ∀ b, closestBackward ds t = some b →
      b ∈ ds ∧ strLeB b t = true ∧ ∀ x ∈ ds, strLeB x t = true → strLeB x b = true := by
  induction ds with
  | nil => intro b h; exact Option.noConfusion h
  | cons d ds ih =>
      intro b h
      by_cases hdt : strLeB d t = true
      · simp only [closestBackward, hdt, if_true] at h
        cases hr : closestBackward ds t with
        | none =>
            rw [hr] at h
            have hb : d = b := by simpa using h
            subst hb
            refine ⟨List.mem_cons_self _ _, hdt, ?_⟩
            intro x hx hxt
            rcases List.mem_cons.mp hx with rfl | hx2
            · exact strLeB_refl x
            · exact absurd hxt (by simp [(closestBackward_none_iff ds t).mp hr x hx2])
        | some b0 =>
            rw [hr] at h
            obtain ⟨hb0mem, hb0le, hb0max⟩ := ih b0 hr
            by_cases hb0d : strLeB b0 d = true
            · have hb : d = b := by simpa [hb0d] using h
              subst hb
              refine ⟨List.mem_cons_self _ _, hdt, ?_⟩
              intro x hx hxt
              rcases List.mem_cons.mp hx with rfl | hx2
              · exact strLeB_refl x
              · exact strLeB_trans x b0 d (hb0max x hx2 hxt) hb0d
            · have hb : b0 = b := by simpa [hb0d] using h
              subst hb
              refine ⟨List.mem_cons_of_mem d hb0mem, hb0le, ?_⟩
              intro x hx hxt
              rcases List.mem_cons.mp hx with rfl | hx2
              · exact strLeB_total b0 x (Bool.eq_false_iff.mpr hb0d)
              · exact hb0max x hx2 hxt
      · simp only [closestBackward, hdt, if_false] at h
        have h2 : closestBackward ds t = some b := by simpa using h
        obtain ⟨hbmem, hble, hbmax⟩ := ih b h2
        refine ⟨List.mem_cons_of_mem d hbmem, hble, ?_⟩
        intro x hx hxt
        rcases List.mem_cons.mp hx with rfl | hx2
        · exact absurd hxt hdt
        · exact hbmax x hx2 hxt

theorem closestForward_none_iff (ds : List String) (t : String) :
    closestForward ds t = none ↔ ∀ x ∈ ds, strLeB t x = false := by
  induction ds with
  | nil => simp [closestForward]
  | cons d ds ih =>
      constructor
      · intro h
        by_cases hdt : strLeB t d = true
        · exfalso
          simp only [closestForward, hdt, if_true] at h
          cases hr : closestForward ds t with
          | none => rw [hr] at h; exact Option.noConfusion h
          | some b => rw [hr] at h; by_cases hb : strLeB d b = true <;> simp [hb] at h
        · intro x hx
          rcases List.mem_cons.mp hx with rfl | hx2
          · exact Bool.eq_false_iff.mpr hdt
          · have : closestForward ds t = none := by
              simp only [closestForward, hdt, if_false] at h
              simpa using h
            exact (ih.mp this) x hx2
      · intro h
        have hd : strLeB t d = false := h d (List.mem_cons_self d ds)
        have hrest : closestForward ds t = none :=
          ih.mpr (fun x hx => h x (List.mem_cons_of_mem d hx))
        simp [closestForward, hd, hrest]

theorem closestForward_spec (ds : List String) (t : String) :
    ∀ b, closestForward ds t = some b →
      b ∈ ds ∧ strLeB t b = true ∧ ∀ x ∈ ds, strLeB t x = true → strLeB b x = true := by
  induction ds with
  | nil => intro b h; exact Option.noConfusion h
  | cons d ds ih =>
      intro b h
      by_cases hdt : strLeB t d = true
      · simp only [closestForward, hdt, if_true] at h
        cases hr : closestForward ds t with
        | none =>
            rw [hr] at h
            have hb : d = b := by simpa using h
            subst hb
            refine ⟨List.mem_cons_self _ _, hdt, ?_⟩
            intro x hx hxt
            rcases List.mem_cons.mp hx with rfl | hx2
            · exact strLeB_refl x
            · exact absurd hxt (by simp [(closestForward_none_iff ds t).mp hr x hx2])
        | some b0 =>
            rw [hr] at h
            obtain ⟨hb0mem, hb0le, hb0max⟩ := ih b0 hr
            by_cases hb0d : strLeB d b0 = true
            · have hb : d = b := by simpa [hb0d] using h
              subst hb
              refine ⟨List.mem_cons_self _ _, hdt, ?_⟩
              intro x hx hxt
              rcases List.mem_cons.mp hx with rfl | hx2
              · exact strLeB_refl x
              · exact strLeB_trans d b0 x hb0d (hb0max x hx2 hxt)
            · have hb : b0 = b := by simpa [hb0d] using h
              subst hb
              refine ⟨List.mem_cons_of_mem d hb0mem, hb0le, ?_⟩
              intro x hx hxt
              rcases List.mem_cons.mp hx with rfl | hx2
              · exact strLeB_total x b0 (Bool.eq_false_iff.mpr hb0d)
              · exact hb0max x hx2 hxt
      · simp only [closestForward, hdt, if_false] at h
        have h2 : closestForward ds t = some b := by simpa using h
        obtain ⟨hbmem, hble, hbmax⟩ := ih b h2
        refine ⟨List.mem_cons_of_mem d hbmem, hble, ?_⟩
        intro x hx hxt
        rcases List.mem_cons.mp hx with rfl | hx2
        · exact absurd hxt hdt
        · exact hbmax x hx2 hxt

/-- C7: `get_closest_dates` returns, as its first component, the maximum
stored date at or before `date1` and, as its second, the minimum stored date
at or after `date2`, with dates compared as strings; and on the stored dates
2025-05-30 and 2025-06-05, resolving (2025-06-01, 2025-06-04) yields
(2025-05-30, 2025-06-05). -/
theorem c7_resolve_closest_dates (store : List (String × Val)) (date1 date2 : String) :
    (∀ b, (get_closest_dates store date1 date2).1 = some b →
        b ∈ store.map Prod.fst ∧ strLeB b date1 = true ∧
        ∀ x ∈ store.map Prod.fst, strLeB x date1 = true → strLeB x b = true) ∧
    ((get_closest_dates store date1 date2).1 = none ↔
        ∀ x ∈ store.map Prod.fst, strLeB x date1 = false) ∧
    (∀ b, (get_closest_dates store date1 date2).2 = some b →
        b ∈ store.map Prod.fst ∧ strLeB date2 b = true ∧
        ∀ x ∈ store.map Prod.fst, strLeB date2 x = true → strLeB b x = true) ∧
    ((get_closest_dates store date1 date2).2 = none ↔
        ∀ x ∈ store.map Prod.fst, strLeB date2 x = false) ∧
    get_closest_dates cstore ("2025-06-01") ("2025-06-04") =
      (some ("2025-05-30"), some ("2025-06-05")) :=
  ⟨closestBackward_spec (store.map Prod.fst) date1,
   closestBackward_none_iff (store.map Prod.fst) date1,
   closestForward_spec (store.map Prod.fst) date2,
   closestForward_none_iff (store.map Prod.fst) date2,
   by decide⟩

/-- Witness for `c7_resolve_closest_dates` at a concrete input. -/
theorem c7_witness :
    (("2025-05-30" : String) ∈ cstore.map Prod.fst ∧
      strLeB ("2025-05-30") ("2025-06-01") = true ∧
      ∀ x ∈ cstore.map Prod.fst, strLeB x ("2025-06-01") = true →
        strLeB x ("2025-05-30") = true) ∧
    (("2025-06-05" : String) ∈ cstore.map Prod.fst ∧
      strLeB ("2025-06-04") ("2025-06-05") = true ∧
      ∀ x ∈ cstore.map Prod.fst, strLeB ("2025-06-04") x = true →
        strLeB ("2025-06-05") x = true) :=
  ⟨(c7_resolve_closest_dates cstore ("2025-06-01") ("2025-06-04")).1 ("2025-05-30") (by decide),
   (c7_resolve_closest_dates cstore ("2025-06-01") ("2025-06-04")).2.2.1 ("2025-06-05")
     (by decide)⟩

/-- Counterexample to C9: when no stored date lies at or before `date1`,
`get_closest_dates` returns `None` for that side (no NotFoundError), and the
diff response is an ordinary forecasts object that silently omits the
missing side — not an explanatory error string. -/
theorem c9_counterexample :
    get_closest_dates store9 ("2025-06-30") ("2025-06-30") =
      (none, some ("2025-07-01")) ∧
    compare_forecast_dates store9 ("2025-06-30") ("2025-06-30") =
      .vdict (.cons kForecasts (.vdict (.cons ("2025-07-01")
        (.vdict (.cons kDate (.vstr ("2025-07-01"))
          (.cons kForecast (.vdict (.cons kOpportunities (.vlist .nil) .nil)) .nil)))
        .nil)) .nil) ∧
    isDict (compare_forecast_dates store9 ("2025-06-30") ("2025-06-30")) = true ∧
    get_closest_dates store9 ("2025-07-15") ("2025-07-15") =
      (some ("2025-07-01"), none) ∧
    compare_forecast_dates store9 ("2025-07-15") ("2025-07-15") =
      .vdict (.cons kForecasts (.vdict (.cons ("2025-07-01")
        (.vdict (.cons kDate (.vstr ("2025-07-01"))
          (.cons kForecast (.vdict (.cons kOpportunities (.vlist .nil) .nil)) .nil)))
        .nil)) .nil) ∧
    isDict (compare_forecast_dates store9 ("2025-07-15") ("2025-07-15")) = true :=
  ⟨by decide, by decide, by decide, by decide, by decide, by decide⟩

/-- C9 as amended: whichever side fails to resolve — no stored date at or
before `date1` (first conjunct) or no stored date at or after `date2`
(second conjunct) — `get_closest_dates` reports it as `None` exactly when no
stored date lies on that side, and `compare_forecast_dates` then returns the
usual `{"forecasts": ...}` object containing only whatever the other side
resolved to — no error is raised and no explanatory error string is
produced. -/
theorem c9_absent_side_silent (store : List (String × Val)) (date1 date2 : String) :
    ((get_closest_dates store date1 date2).1 = none →
      (∀ x ∈ store.map Prod.fst, strLeB x date1 = false) ∧
      compare_forecast_dates store date1 date2 =
        .vdict (.cons kForecasts (.vdict (vfOfList
          (addSide [] store (get_closest_dates store date1 date2).2))) .nil)) ∧
    ((get_closest_dates store date1 date2).2 = none →
      (∀ x ∈ store.map Prod.fst, strLeB date2 x = false) ∧
      compare_forecast_dates store date1 date2 =
        .vdict (.cons kForecasts (.vdict (vfOfList
          (addSide [] store (get_closest_dates store date1 date2).1))) .nil)) := by
  constructor
  · intro h
    constructor
    · exact (closestBackward_none_iff (store.map Prod.fst) date1).mp h
    · simp only [compare_forecast_dates]
      rw [h]
      rfl
  · intro h
    constructor
    · exact (closestForward_none_iff (store.map Prod.fst) date2).mp h
    · simp only [compare_forecast_dates]
      rw [h]
      rfl

/-- Witness for `c9_absent_side_silent`: the backward side missing at one
concrete input and the forward side missing at another, over the same
store. -/
theorem c9_witness :
    ((∀ x ∈ store9.map Prod.fst, strLeB x ("2025-06-30") = false) ∧
     compare_forecast_dates store9 ("2025-06-30") ("2025-06-30") =
       .vdict (.cons kForecasts (.vdict (vfOfList
         (addSide [] store9 (get_closest_dates store9 ("2025-06-30") ("2025-06-30")).2))) .nil)) ∧
    ((∀ x ∈ store9.map Prod.fst, strLeB ("2025-07-15") x = false) ∧
     compare_forecast_dates store9 ("2025-07-15") ("2025-07-15") =
       .vdict (.cons kForecasts (.vdict (vfOfList
         (addSide [] store9 (get_closest_dates store9 ("2025-07-15") ("2025-07-15")).1))) .nil)) :=
  ⟨(c9_absent_side_silent store9 ("2025-06-30") ("2025-06-30")).1 (by decide),
   (c9_absent_side_silent store9 ("2025-07-15") ("2025-07-15")).2 (by decide)⟩

/-- Counterexample to C8: in the spec's worked example the Total Value
values are the strings "100" and "150", so the record is Modified but the
rendered line is the non-numeric "Total Value changed from '100' to '150'",
not "Total Value increased from 100 to 150 (+50)". -/
theorem c8_counterexample :
    ((compare_forecast_entries data8 ("2025-06-01") ("2025-06-07")).map
        (fun r => pyGetD r kStatus .vnull)) = [.vstr ("Modified")] ∧
    ((compare_forecast_entries data8 ("2025-06-01") ("2025-06-07")).map
        (fun r => generate_difference_explanation r [])) =
      [["Start changed from \x27\x27 to \x27March\x27",
        "Duration changed from \x27\x27 to \x273\x27",
        "Total Value changed from \x27100\x27 to \x27150\x27"]] ∧
    (compare_forecast_entries data8 ("2025-06-01") ("2025-06-07")).all
      (fun r => !((generate_difference_explanation r []).contains
        ("Total Value increased from 100 to 150 (+50)"))) = true :=
  ⟨by decide, by decide, by decide⟩

/-- C8 as amended: each leaf bearing `oldest`/`newest` renders one line
keyed by the dotted path (array items acquire a `value` segment and then the
index `[i]`): an int/float pair renders as increased/decreased with a signed
delta, any other pair as "changed from '<old>' to '<new>'".  In the spec's
example the record is Modified with lines for Start, Duration and Total
Value, the Total Value line being the non-numeric rendering. -/
theorem c8_explanation_rendering (path : List String) (o n d : Val) :
    (path ≠ [] → (isNum o && isNum n) = true → numGtZero (numSub o n) = true →
      generate_difference_explanation (mkOND o n d) path =
        [String.intercalate (".") path ++ " increased from " ++ pyStr o ++ " to " ++
          pyStr n ++ " (+" ++ pyStr (numSub o n) ++ ")"]) ∧
    (path ≠ [] → (isNum o && isNum n) = true → numGtZero (numSub o n) = false →
      generate_difference_explanation (mkOND o n d) path =
        [String.intercalate (".") path ++ " decreased from " ++ pyStr o ++ " to " ++
          pyStr n ++ " (" ++ pyStr (numSub o n) ++ ")"]) ∧
    (path ≠ [] → (isNum o && isNum n) = false →
      generate_difference_explanation (mkOND o n d) path =
        [String.intercalate (".") path ++ " changed from \x27" ++ pyStr o ++
          "\x27 to \x27" ++ pyStr n ++ "\x27"]) ∧
    generate_difference_explanation (.vdict (.cons ("L")
        (mkValue (.vlist (.cons (mkOND (.vint 1) (.vint 2) (.vint 1)) .nil))) .nil)) [] =
      ["L.value.[0] increased from 1 to 2 (+1)"] ∧
    ((compare_forecast_entries data8 ("2025-06-01") ("2025-06-07")).map
        (fun r => pyGetD r kStatus .vnull)) = [.vstr ("Modified")] ∧
    ((compare_forecast_entries data8 ("2025-06-01") ("2025-06-07")).map
        (fun r => generate_difference_explanation r [])) =
      [["Start changed from \x27\x27 to \x27March\x27",
        "Duration changed from \x27\x27 to \x273\x27",
        "Total Value changed from \x27100\x27 to \x27150\x27"]] := by
  have hgen : generate_difference_explanation (mkOND o n d) path = [renderLine path o n] := rfl
  refine ⟨?_, ?_, ?_, by decide, by decide, by decide⟩
  · intro h1 h2 h3
    rw [hgen]
    cases path with
    | nil => exact absurd rfl h1
    | cons a as => simp [renderLine, h2, h3]
  · intro h1 h2 h3
    rw [hgen]
    cases path with
    | nil => exact absurd rfl h1
    | cons a as => simp [renderLine, h2, h3]
  · intro h1 h2
    rw [hgen]
    cases path with
    | nil => exact absurd rfl h1
    | cons a as => simp [renderLine, h2]

/-- Witness for `c8_explanation_rendering` at a concrete input. -/
theorem c8_witness :
    generate_difference_explanation (mkOND (.vint 3) (.vint 10) (.vint 7)) [("Psens")] =
      ["Psens increased from 3 to 10 (+7)"] := by
  have h := (c8_explanation_rendering [("Psens")] (.vint 3) (.vint 10) (.vint 7)).1
    (by decide) (by decide) (by decide)
  simpa using h

theorem deep_annotate_null_left : ∀ (v : Val) (key : Option String),
    deep_annotate .vnull v key = annNullLeft v key := by
  intro v key
  by_cases hsd : sdKey key = true
  · cases v with
    | vnull => simp [deep_annotate, annNullLeft, hsd, pdIsna]
    | vnan => simp [deep_annotate, annNullLeft, hsd, pdIsna]
    | vstr s => simp [deep_annotate, annNullLeft, hsd, pdIsna]
    | vint n => simp [deep_annotate, annNullLeft, hsd, pdIsna]
    | vlist xs => simp [deep_annotate, annNullLeft, hsd, pdIsna]
    | vdict fs => simp [deep_annotate, annNullLeft, hsd, pdIsna]
  · have hsd2 : sdKey key = false := Bool.eq_false_iff.mpr hsd
    cases v with
    | vnull => simp [deep_annotate, annNullLeft, hsd2, is_empty]
    | vnan => simp [deep_annotate, annNullLeft, hsd2, is_empty]
    | vstr s =>
        cases hb : isBlank s <;>
          simp [deep_annotate, annNullLeft, hsd2, is_empty, hb]
    | vint n => simp [deep_annotate, annNullLeft, hsd2, is_empty]
    | vlist xs => cases xs <;> simp [deep_annotate, annNullLeft, hsd2, is_empty]
    | vdict fs => cases fs <;> simp [deep_annotate, annNullLeft, hsd2, is_empty]

theorem beq_eq_of_eq_true {k k2 : String} (h : (k == k2) = true) : k = k2 :=
  eq_of_beq h

theorem annFields1_excl_not_contains :
    ∀ (fs1 fs2 : ValFields) (seen : List String) (k2 : String),
      should_exclude_field k2 = true →
      containsKeyF (annFields1 fs1 fs2 seen) k2 = false
  | .nil, _, _, _, _ => rfl
  | .cons k v rest, fs2, seen, k2, hexcl => by
      unfold annFields1
      by_cases hskip : (seen.contains k || should_exclude_field k) = true
      · simp only [hskip, if_true]
        exact annFields1_excl_not_contains rest fs2 (k :: seen) k2 hexcl
      · simp only [hskip, if_false, containsKeyF]
        have hk : (k == k2) = false := by
          by_cases he : k = k2
          · subst he
            simp [hexcl] at hskip
          · simp [he]
        simp [hk, annFields1_excl_not_contains rest fs2 (k :: seen) k2 hexcl]

theorem annFields2_excl_not_contains :
    ∀ (fs2 fs1 : ValFields) (seen : List String) (k2 : String),
      should_exclude_field k2 = true →
      containsKeyF (annFields2 fs2 fs1 seen) k2 = false
  | .nil, _, _, _, _ => rfl
  | .cons k v rest, fs1, seen, k2, hexcl => by
      unfold annFields2
      by_cases hskip : (seen.contains k || containsKeyF fs1 k || should_exclude_field k) = true
      · simp only [hskip, if_true]
        exact annFields2_excl_not_contains rest fs1 (k :: seen) k2 hexcl
      · simp only [hskip, if_false, containsKeyF]
        have hk : (k == k2) = false := by
          by_cases he : k = k2
          · subst he
            simp [hexcl] at hskip
          · simp [he]
        simp [hk, annFields2_excl_not_contains rest fs1 (k :: seen) k2 hexcl]

theorem annFields1_not_contains :
    ∀ (fs1 fs2 : ValFields) (seen : List String) (k2 : String),
      containsKeyF fs1 k2 = false →
      containsKeyF (annFields1 fs1 fs2 seen) k2 = false
  | .nil, _, _, _, _ => rfl
  | .cons k v rest, fs2, seen, k2, hnc => by
      simp only [containsKeyF, Bool.or_eq_false_iff] at hnc
      unfold annFields1
      by_cases hskip : (seen.contains k || should_exclude_field k) = true
      · simp only [hskip, if_true]
        exact annFields1_not_contains rest fs2 (k :: seen) k2 hnc.2
      · simp only [hskip, if_false, containsKeyF]
        simp [hnc.1, annFields1_not_contains rest fs2 (k :: seen) k2 hnc.2]

theorem getF_appendF : ∀ (a b : ValFields) (k : String),
    getF (appendF a b) k =
      match getF a k with
      | some v => some v
      | none => getF b k
  | .nil, _, _ => rfl
  | .cons k1 v rest, b, k => by
      by_cases hk : (k1 == k) = true
      · simp [appendF, getF, hk]
      · simp only [Bool.not_eq_true] at hk
        simp [appendF, getF, hk, getF_appendF rest b k]

theorem containsKeyF_appendF : ∀ (a b : ValFields) (k : String),
    containsKeyF (appendF a b) k = (containsKeyF a k || containsKeyF b k)
  | .nil, _, _ => rfl
  | .cons k1 v rest, b, k => by
      simp [appendF, containsKeyF, containsKeyF_appendF rest b k, Bool.or_assoc]

theorem annFields1_getF :
    ∀ (fs1 fs2 : ValFields) (seen : List String) (k2 : String),
      should_exclude_field k2 = false →
      seen.contains k2 = false →
      containsKeyF fs1 k2 = true →
      getF (annFields1 fs1 fs2 seen) k2 =
        some (deep_annotate (getFD fs1 k2 .vnull) (getFD fs2 k2 .vnull) (some k2))
  | .nil, _, _, _, _, _, hc => by simp [containsKeyF] at hc
  | .cons k v rest, fs2, seen, k2, hexcl, hseen, hc => by
      by_cases hk : (k == k2) = true
      · have he : k = k2 := eq_of_beq hk
        subst he
        have hskip : (seen.contains k || should_exclude_field k) = false := by
          rw [hseen, hexcl]
          rfl
        unfold annFields1
        rw [hskip]
        simp [getF, getFD]
      · have hne : k ≠ k2 := fun he => by subst he; simp at hk
        have hk2 : (k2 == k) = false := beq_eq_false_iff_ne.mpr (Ne.symm hne)
        have hkf : (k == k2) = false := beq_eq_false_iff_ne.mpr hne
        have hc2 : containsKeyF rest k2 = true := by
          simpa [containsKeyF, hkf] using hc
        have hseen2 : (k :: seen).contains k2 = false := by
          simp only [List.contains_cons, hk2, hseen, Bool.false_or]
        have hrec := annFields1_getF rest fs2 (k :: seen) k2 hexcl hseen2 hc2
        unfold annFields1
        by_cases hskip : (seen.contains k || should_exclude_field k) = true
        · rw [hskip]
          simp only [if_true]
          rw [hrec]
          simp [getFD, getF, hkf]
        · have hskip2 : (seen.contains k || should_exclude_field k) = false :=
            Bool.eq_false_iff.mpr hskip
          rw [hskip2]
          simp only [Bool.false_eq_true, if_false, getF, hkf]
          rw [hrec]
          simp [getFD, getF, hkf]

theorem annFields2_getF :
    ∀ (fs2 fs1 : ValFields) (seen : List String) (k2 : String),
      should_exclude_field k2 = false →
      seen.contains k2 = false →
      containsKeyF fs1 k2 = false →
      containsKeyF fs2 k2 = true →
      getF (annFields2 fs2 fs1 seen) k2 =
        some (annNullLeft (getFD fs2 k2 .vnull) (some k2))
  | .nil, _, _, _, _, _, _, hc => by simp [containsKeyF] at hc
  | .cons k v rest, fs1, seen, k2, hexcl, hseen, hnc1, hc => by
      by_cases hk : (k == k2) = true
      · have he : k = k2 := eq_of_beq hk
        subst he
        have hskip : (seen.contains k || containsKeyF fs1 k || should_exclude_field k) = false := by
          rw [hseen, hnc1, hexcl]
          rfl
        unfold annFields2
        rw [hskip]
        simp [getF, getFD]
      · have hne : k ≠ k2 := fun he => by subst he; simp at hk
        have hk2 : (k2 == k) = false := beq_eq_false_iff_ne.mpr (Ne.symm hne)
        have hkf : (k == k2) = false := beq_eq_false_iff_ne.mpr hne
        have hc2 : containsKeyF rest k2 = true := by
          simpa [containsKeyF, hkf] using hc
        have hseen2 : (k :: seen).contains k2 = false := by
          simp only [List.contains_cons, hk2, hseen, Bool.false_or]
        have hrec := annFields2_getF rest fs1 (k :: seen) k2 hexcl hseen2 hnc1 hc2
        unfold annFields2
        by_cases hskip : (seen.contains k || containsKeyF fs1 k || should_exclude_field k) = true
        · rw [hskip]
          simp only [if_true]
          rw [hrec]
          simp [getFD, getF, hkf]
        · have hskip2 : (seen.contains k || containsKeyF fs1 k || should_exclude_field k) = false :=
            Bool.eq_false_iff.mpr hskip
          rw [hskip2]
          simp only [Bool.false_eq_true, if_false, getF, hkf]
          rw [hrec]
          simp [getFD, getF, hkf]

theorem vlOfList_vlToList : ∀ zs : ValList, vlOfList (vlToList zs) = zs
  | .nil => rfl
  | .cons x xs => by simp [vlToList, vlOfList, vlOfList_vlToList xs]

theorem padLeftList_toList : ∀ ys : ValList,
    vlToList (padLeftList ys) =
      (padZip [] (vlToList ys)).map (fun p => deep_annotate p.1 p.2 none)
  | .nil => by simp [padLeftList, vlToList, padZip]
  | .cons y ys => by
      simp [padLeftList, vlToList, padZip, padLeftList_toList ys,
        deep_annotate_null_left]

theorem annotateList_toList : ∀ xs ys : ValList,
    vlToList (annotateList xs ys) =
      (padZip (vlToList xs) (vlToList ys)).map (fun p => deep_annotate p.1 p.2 none)
  | .nil, ys => by
      simpa [annotateList] using padLeftList_toList ys
  | .cons x xs, .nil => by
      simp [annotateList, vlToList, padZip, annotateList_toList xs .nil]
  | .cons x xs, .cons y ys => by
      simp [annotateList, vlToList, padZip, annotateList_toList xs ys]

/-- C3: the standard (non-Start/Duration) rules of `deep_annotate`, applied
in order: both empty gives `{value: null}`; exactly one side null gives
`{oldest, newest, difference}` mirroring the non-null side (deleting yields
`difference: null`); two mappings are annotated per non-excluded key with
missing keys read as null; two sequences are annotated positionally with
null padding, wrapped in `{value: [...]}`; anything else is the leaf
compare, whose difference is `n - o` for numeric pairs and `n` otherwise. -/
theorem c3_standard_rules (o n : Val) (key : Option String) (hk : sdKey key = false) :
    ((is_empty o && is_empty n) = true → deep_annotate o n key = mkValue .vnull) ∧
    ((is_empty o && is_empty n) = false → o = .vnull →
      deep_annotate o n key = mkOND .vnull n n) ∧
    ((is_empty o && is_empty n) = false → o ≠ .vnull → n = .vnull →
      deep_annotate o n key = mkOND o .vnull .vnull) ∧
    (∀ fs1 fs2, o = .vdict fs1 → n = .vdict fs2 → (is_empty o && is_empty n) = false →
      ∀ k2, (should_exclude_field k2 = true →
               containsKeyV (deep_annotate o n key) k2 = false) ∧
            (should_exclude_field k2 = false →
               (containsKeyF fs1 k2 || containsKeyF fs2 k2) = true →
               pyGetD (deep_annotate o n key) k2 .vnull =
                 deep_annotate (getFD fs1 k2 .vnull) (getFD fs2 k2 .vnull) (some k2))) ∧
    (∀ xs ys, o = .vlist xs → n = .vlist ys → (is_empty o && is_empty n) = false →
      deep_annotate o n key =
        mkValue (.vlist (vlOfList ((padZip (vlToList xs) (vlToList ys)).map
          (fun p => deep_annotate p.1 p.2 none))))) ∧
    ((isDict o && isDict n) = false → (isList o && isList n) = false →
      (is_empty o && is_empty n) = false → o ≠ .vnull → n ≠ .vnull →
      deep_annotate o n key = annotate_diff o n) ∧
    (pyEq o n = true → annotate_diff o n = mkValue o) ∧
    (pyEq o n = false → (isNum o && isNum n) = true →
      annotate_diff o n = mkOND o n (numSub o n)) ∧
    (pyEq o n = false → (isNum o && isNum n) = false →
      annotate_diff o n = mkOND o n n) := by
  refine ⟨?_, ?_, ?_, ?_, ?_, ?_, ?_, ?_, ?_⟩
  · intro h
    unfold deep_annotate
    simp [hk, h]
  · intro hboth ho
    subst ho
    have hn : is_empty n = false := by simpa [is_empty] using hboth
    rw [deep_annotate_null_left]
    simp [annNullLeft, hk, hn]
  · intro hboth hone hn
    subst hn
    have ho : is_empty o = false := by simpa [is_empty] using hboth
    cases o with
    | vnull => exact absurd rfl hone
    | vnan => simp [is_empty] at ho
    | vstr s => unfold deep_annotate; simp [hk, is_empty, ho, is_empty] at ho ⊢; simp [ho]
    | vint m => unfold deep_annotate; simp [hk, is_empty]
    | vlist xs =>
        cases xs with
        | nil => simp [is_empty] at ho
        | cons x xs => unfold deep_annotate; simp [hk, is_empty]
    | vdict fs =>
        cases fs with
        | nil => simp [is_empty] at ho
        | cons k1 v1 fs => unfold deep_annotate; simp [hk, is_empty]
  · intro fs1 fs2 ho hn hboth k2
    subst ho
    subst hn
    have hda : deep_annotate (.vdict fs1) (.vdict fs2) key =
        .vdict (appendF (annFields1 fs1 fs2 []) (annFields2 fs2 fs1 [])) := by
      unfold deep_annotate
      simp [hk, hboth]
    constructor
    · intro hexcl
      rw [hda]
      show containsKeyF (appendF (annFields1 fs1 fs2 []) (annFields2 fs2 fs1 [])) k2 = false
      rw [containsKeyF_appendF,
        annFields1_excl_not_contains fs1 fs2 [] k2 hexcl,
        annFields2_excl_not_contains fs2 fs1 [] k2 hexcl]
      rfl
    · intro hexcl hcont
      rw [hda]
      show getFD (appendF (annFields1 fs1 fs2 []) (annFields2 fs2 fs1 [])) k2 .vnull = _
      by_cases h1 : containsKeyF fs1 k2 = true
      · have hsome := annFields1_getF fs1 fs2 [] k2 hexcl rfl h1
        have happ : getF (appendF (annFields1 fs1 fs2 []) (annFields2 fs2 fs1 [])) k2 =
            some (deep_annotate (getFD fs1 k2 .vnull) (getFD fs2 k2 .vnull) (some k2)) := by
          rw [getF_appendF, hsome]
        simp [getFD, happ]
      · have h1f : containsKeyF fs1 k2 = false := Bool.eq_false_iff.mpr h1
        have h2 : containsKeyF fs2 k2 = true := by simpa [h1f] using hcont
        have hnone : getF (annFields1 fs1 fs2 []) k2 = none :=
          getF_eq_none_of_not_contains _ _ (annFields1_not_contains fs1 fs2 [] k2 h1f)
        have hsome := annFields2_getF fs2 fs1 [] k2 hexcl rfl h1f h2
        have happ : getF (appendF (annFields1 fs1 fs2 []) (annFields2 fs2 fs1 [])) k2 =
            some (annNullLeft (getFD fs2 k2 .vnull) (some k2)) := by
          rw [getF_appendF, hnone]
          exact hsome
        have hfd : getFD fs1 k2 .vnull = .vnull := by
          simp [getFD, getF_eq_none_of_not_contains _ _ h1f]
        rw [hfd, deep_annotate_null_left]
        simp [getFD, happ]
  · intro xs ys ho hn hboth
    subst ho
    subst hn
    have hda : deep_annotate (.vlist xs) (.vlist ys) key =
        mkValue (.vlist (annotateList xs ys)) := by
      unfold deep_annotate
      simp [hk, hboth]
    rw [hda, ← annotateList_toList, vlOfList_vlToList]
  · intro hd hl hboth ho hn
    cases o <;> cases n <;>
      simp_all [deep_annotate, hk, isDict, isList, is_empty]
  · intro h
    unfold annotate_diff
    simp [h]
  · intro h h2
    unfold annotate_diff
    simp [h, h2]
  · intro h h2
    unfold annotate_diff
    simp [h, h2]

/-- Witness for `c3_standard_rules` at a concrete input. -/
theorem c3_witness :
    sdKey (some ("AdB")) = false ∧
    deep_annotate .vnull (.vint 5) (some ("AdB")) = mkOND .vnull (.vint 5) (.vint 5) ∧
    annotate_diff (.vint 2) (.vint 5) = mkOND (.vint 2) (.vint 5) (numSub (.vint 2) (.vint 5)) :=
  ⟨by decide,
   (c3_standard_rules .vnull (.vint 5) (some ("AdB")) (by decide)).2.1 (by decide) rfl,
   (c3_standard_rules (.vint 2) (.vint 5) (some ("AdB")) (by decide)).2.2.2.2.2.2.2.1
     (by decide) (by decide)⟩

theorem annOk_mkValue (v : Val) : annOkVal (mkValue v) = true := rfl

theorem annOk_mkOND (o n d : Val) : annOkVal (mkOND o n d) = true := rfl

theorem annOk_annotate_diff (a b : Val) : annOkVal (annotate_diff a b) = true := by
  by_cases h : pyEq a b = true
  · simp [annotate_diff, h, annOk_mkValue]
  · have h2 : pyEq a b = false := Bool.eq_false_iff.mpr h
    simp [annotate_diff, h2, annOk_mkOND]

theorem annOk_annNullLeft (v : Val) (k : Option String) :
    annOkVal (annNullLeft v k) = true := by
  unfold annNullLeft
  split <;> split <;> first | exact annOk_mkValue _ | exact annOk_mkOND _ _ _

theorem annOkFields_appendF : ∀ (a b : ValFields),
    annOkFields a = true → annOkFields b = true → annOkFields (appendF a b) = true
  | .nil, b, _, hb => hb
  | .cons k v rest, b, ha, hb => by
      simp only [annOkFields, Bool.and_eq_true] at ha
      simp only [appendF, annOkFields, Bool.and_eq_true]
      exact ⟨ha.1, annOkFields_appendF rest b ha.2 hb⟩

theorem annOk_annFields2 : ∀ (fs2 fs1 : ValFields) (seen : List String),
    annOkFields (annFields2 fs2 fs1 seen) = true
  | .nil, _, _ => rfl
  | .cons k v rest, fs1, seen => by
      unfold annFields2
      by_cases hskip : (seen.contains k || containsKeyF fs1 k || should_exclude_field k) = true
      · rw [hskip]
        simp only [if_true]
        exact annOk_annFields2 rest fs1 (k :: seen)
      · have hskip2 := Bool.eq_false_iff.mpr hskip
        rw [hskip2]
        simp only [Bool.false_eq_true, if_false, annOkFields, Bool.and_eq_true]
        refine ⟨?_, annOk_annFields2 rest fs1 (k :: seen)⟩
        have hexcl : should_exclude_field k = false :=
          (Bool.or_eq_false_iff.mp hskip2).2
        cases hbk : boundaryKey k <;>
          simp [hbk, hexcl, annOk_annNullLeft]

mutual

theorem annOk_deep_annotate : ∀ (o1 o2 : Val) (key : Option String),
    annOkVal (deep_annotate o1 o2 key) = true
  | .vnull, o2, key => by
      rw [deep_annotate_null_left]
      exact annOk_annNullLeft o2 key
  | .vnan, o2, key => by
      unfold deep_annotate
      repeat' split
      all_goals first
        | exact annOk_mkValue _
        | exact annOk_mkOND _ _ _
        | exact annOk_annotate_diff _ _
        | (exfalso; simp_all)
  | .vstr s, o2, key => by
      unfold deep_annotate
      repeat' split
      all_goals first
        | exact annOk_mkValue _
        | exact annOk_mkOND _ _ _
        | exact annOk_annotate_diff _ _
        | (exfalso; simp_all)
  | .vint m, o2, key => by
      unfold deep_annotate
      repeat' split
      all_goals first
        | exact annOk_mkValue _
        | exact annOk_mkOND _ _ _
        | exact annOk_annotate_diff _ _
        | (exfalso; simp_all)
  | .vlist xs, o2, key => by
      unfold deep_annotate
      repeat' split
      all_goals first
        | exact annOk_mkValue _
        | exact annOk_mkOND _ _ _
        | exact annOk_annotate_diff _ _
        | (exfalso; simp_all)
  | .vdict fs1, o2, key => by
      by_cases hsd : sdKey key = true
      · unfold deep_annotate
        simp only [hsd, if_true]
        repeat' split
        all_goals first
          | exact annOk_mkValue _
          | exact annOk_mkOND _ _ _
          | exact annOk_annotate_diff _ _
      · have hsd2 : sdKey key = false := Bool.eq_false_iff.mpr hsd
        cases o2 with
        | vdict fs2 =>
            by_cases hemp : (is_empty (Val.vdict fs1) && is_empty (Val.vdict fs2)) = true
            · unfold deep_annotate
              simp only [hsd2, Bool.false_eq_true, if_false, hemp, if_true]
              exact annOk_mkValue _
            · have hemp2 := Bool.eq_false_iff.mpr hemp
              unfold deep_annotate
              simp only [hsd2, Bool.false_eq_true, if_false, hemp2]
              exact annOkFields_appendF _ _ (annOk_annFields1 fs1 fs2 [])
                (annOk_annFields2 fs2 fs1 [])
        | vnull =>
            unfold deep_annotate
            simp only [hsd2, Bool.false_eq_true, if_false]
            repeat' split
            all_goals first
              | exact annOk_mkValue _
              | exact annOk_mkOND _ _ _
              | exact annOk_annotate_diff _ _
              | (exfalso; simp_all)
        | vnan =>
            unfold deep_annotate
            simp only [hsd2, Bool.false_eq_true, if_false]
            repeat' split
            all_goals first
              | exact annOk_mkValue _
              | exact annOk_mkOND _ _ _
              | exact annOk_annotate_diff _ _
              | (exfalso; simp_all)
        | vstr s2 =>
            unfold deep_annotate
            simp only [hsd2, Bool.false_eq_true, if_false]
            repeat' split
            all_goals first
              | exact annOk_mkValue _
              | exact annOk_mkOND _ _ _
              | exact annOk_annotate_diff _ _
              | (exfalso; simp_all)
        | vint m2 =>
            unfold deep_annotate
            simp only [hsd2, Bool.false_eq_true, if_false]
            repeat' split
            all_goals first
              | exact annOk_mkValue _
              | exact annOk_mkOND _ _ _
              | exact annOk_annotate_diff _ _
              | (exfalso; simp_all)
        | vlist ys =>
            unfold deep_annotate
            simp only [hsd2, Bool.false_eq_true, if_false]
            repeat' split
            all_goals first
              | exact annOk_mkValue _
              | exact annOk_mkOND _ _ _
              | exact annOk_annotate_diff _ _
              | (exfalso; simp_all)
termination_by o1 _ _ => sizeOf o1

theorem annOk_annFields1 : ∀ (fs1 fs2 : ValFields) (seen : List String),
    annOkFields (annFields1 fs1 fs2 seen) = true
  | .nil, _, _ => rfl
  | .cons k v rest, fs2, seen => by
      unfold annFields1
      by_cases hskip : (seen.contains k || should_exclude_field k) = true
      · rw [hskip]
        simp only [if_true]
        exact annOk_annFields1 rest fs2 (k :: seen)
      · have hskip2 := Bool.eq_false_iff.mpr hskip
        rw [hskip2]
        simp only [Bool.false_eq_true, if_false, annOkFields, Bool.and_eq_true]
        refine ⟨?_, annOk_annFields1 rest fs2 (k :: seen)⟩
        have hexcl : should_exclude_field k = false :=
          (Bool.or_eq_false_iff.mp hskip2).2
        cases hbk : boundaryKey k <;>
          simp [hbk, hexcl, annOk_deep_annotate v (getFD fs2 k .vnull) (some k)]
termination_by fs1 _ _ => sizeOf fs1

end

theorem annotate_diff_isDict (a b : Val) : isDict (annotate_diff a b) = true := by
  unfold annotate_diff
  split <;> rfl

theorem annNullLeft_isDict (v : Val) (k : Option String) :
    isDict (annNullLeft v k) = true := by
  unfold annNullLeft
  split <;> split <;> rfl

theorem deep_annotate_isDict (o1 o2 : Val) (key : Option String) :
    isDict (deep_annotate o1 o2 key) = true := by
  unfold deep_annotate
  repeat' split
  all_goals first
    | rfl
    | exact annotate_diff_isDict _ _
    | (exfalso; simp_all)

theorem isDict_exists (v : Val) (h : isDict v = true) : ∃ fs, v = .vdict fs := by
  cases v <;> simp [isDict] at h ⊢

theorem boundary_not_excluded (k : String) (h : boundaryKey k = true) :
    should_exclude_field k = false := by
  simp only [boundaryKey, Bool.or_eq_true, beq_iff_eq] at h
  rcases h with ((h | h) | h) | h <;> subst h <;> decide

theorem annOk_to_outAnnOk : ∀ fs, annOkFields fs = true → outAnnOkF fs = true
  | .nil, _ => rfl
  | .cons k v rest, h => by
      simp only [annOkFields, Bool.and_eq_true] at h
      simp only [outAnnOkF, Bool.and_eq_true]
      refine ⟨?_, annOk_to_outAnnOk rest h.2⟩
      by_cases hsp : specialKey k = true
      · simp [hsp]
      · have hsp2 := Bool.eq_false_iff.mpr hsp
        by_cases hbk : boundaryKey k = true
        · simp [hsp2, hbk]
        · have hbk2 := Bool.eq_false_iff.mpr hbk
          simp only [hbk2, Bool.false_eq_true, if_false] at h
          simp [hsp2, hbk2, h.1]

theorem outAnnOkF_setKey_special :
    ∀ (fs : ValFields) (k : String) (v : Val), specialKey k = true →
      outAnnOkF fs = true → outAnnOkF (setKeyF fs k v) = true
  | .nil, k, v, hsp, _ => by simp [setKeyF, outAnnOkF, hsp]
  | .cons k1 w rest, k, v, hsp, h => by
      simp only [outAnnOkF, Bool.and_eq_true] at h
      unfold setKeyF
      by_cases hk : (k1 == k) = true
      · have he : k1 = k := eq_of_beq hk
        subst he
        simp only [beq_self_eq_true, if_true, outAnnOkF, Bool.and_eq_true]
        exact ⟨by simp [hsp], h.2⟩
      · have hk2 := Bool.eq_false_iff.mpr hk
        simp only [hk2, Bool.false_eq_true, if_false, outAnnOkF, Bool.and_eq_true]
        exact ⟨h.1, outAnnOkF_setKey_special rest k v hsp h.2⟩

theorem outAnnOk_to_outKeysOk : ∀ fs, outAnnOkF fs = true → outKeysOkF fs = true
  | .nil, _ => rfl
  | .cons k v rest, h => by
      simp only [outAnnOkF, Bool.and_eq_true] at h
      simp only [outKeysOkF, Bool.and_eq_true]
      refine ⟨?_, outAnnOk_to_outKeysOk rest h.2⟩
      by_cases hsp : specialKey k = true
      · simp [hsp]
      · have hsp2 := Bool.eq_false_iff.mpr hsp
        by_cases hbk : boundaryKey k = true
        · simp [hsp2, boundary_not_excluded k hbk]
        · have hbk2 := Bool.eq_false_iff.mpr hbk
          have h1 := h.1
          simp only [hsp2, Bool.false_eq_true, if_false, hbk2, Bool.and_eq_true] at h1
          simp [hsp2, h1.1]

theorem filterExclF_keys_ok : ∀ fs, outKeysOkF (filterExclF fs) = true
  | .nil => rfl
  | .cons k v rest => by
      unfold filterExclF
      by_cases hexcl : should_exclude_field k = true
      · simp only [hexcl, if_true]
        exact filterExclF_keys_ok rest
      · have hexcl2 := Bool.eq_false_iff.mpr hexcl
        simp only [hexcl2, Bool.false_eq_true, if_false, outKeysOkF, Bool.and_eq_true]
        exact ⟨by simp [hexcl2], filterExclF_keys_ok rest⟩

theorem outKeysOkF_setKey :
    ∀ (fs : ValFields) (k : String) (v : Val),
      (specialKey k || !should_exclude_field k) = true →
      outKeysOkF fs = true → outKeysOkF (setKeyF fs k v) = true
  | .nil, k, v, hc, _ => by simp [setKeyF, outKeysOkF, hc]
  | .cons k1 w rest, k, v, hc, h => by
      simp only [outKeysOkF, Bool.and_eq_true] at h
      unfold setKeyF
      by_cases hk : (k1 == k) = true
      · have he : k1 = k := eq_of_beq hk
        subst he
        simp only [beq_self_eq_true, if_true, outKeysOkF, Bool.and_eq_true]
        exact ⟨hc, h.2⟩
      · have hk2 := Bool.eq_false_iff.mpr hk
        simp only [hk2, Bool.false_eq_true, if_false, outKeysOkF, Bool.and_eq_true]
        exact ⟨h.1, outKeysOkF_setKey rest k v hc h.2⟩

theorem outKeysOkF_spreadF :
    ∀ (add acc : ValFields), outKeysOkF add = true → outKeysOkF acc = true →
      outKeysOkF (spreadF acc add) = true
  | .nil, _, _, hacc => hacc
  | .cons k v rest, acc, hadd, hacc => by
      simp only [outKeysOkF, Bool.and_eq_true] at hadd
      unfold spreadF
      exact outKeysOkF_spreadF rest (setKeyF acc k v) hadd.2
        (outKeysOkF_setKey acc k v hadd.1 hacc)

theorem mkStatusRecord_keys_ok (idv : Val) (st ex : String) (filtered : ValFields)
    (hf : outKeysOkF filtered = true) :
    outKeysOk (mkStatusRecord idv st ex filtered) = true := by
  unfold mkStatusRecord
  show outKeysOkF (spreadF _ filtered) = true
  exact outKeysOkF_spreadF filtered _ hf (by simp [outKeysOkF, specialKey])

theorem filter_excluded_keys_ok (opp : Val) :
    outKeysOkF (filter_excluded_fields opp) = true := by
  cases opp <;> first | exact filterExclF_keys_ok _ | rfl

/-- C6 as amended: every record emitted by the per-key loop has only
non-excluded (or the added `id`/`status`/`difference_explanation`) keys at
its top level; and for a record built from two present records, every key of
any annotation mapping reached without crossing a
`value`/`oldest`/`newest`/`difference` payload boundary is non-excluded.
Excluded names can still appear deeper: inside raw leaf payloads and below
the top level of Deleted/New records. -/
theorem c6_exclusion_policy (opps1 opps2 : List (String × Val)) (date1 date2 k : String)
    (rec : Val) (h : processKey opps1 opps2 date1 date2 k = some rec) :
    outKeysOk rec = true ∧
    (pyTruthyOpt (lookupL opps1 k) = true → pyTruthyOpt (lookupL opps2 k) = true →
      outAnnOk rec = true) := by
  unfold processKey at h
  by_cases c1 : (pyTruthyOpt (lookupL opps1 k) &&
      pyEq (oGetD (lookupL opps1 k) kTotalValue .vnull) (.vstr ("0"))) = true
  · simp only [c1, if_true] at h
    exact absurd h (by simp)
  · have c1f := Bool.eq_false_iff.mpr c1
    simp only [c1f, Bool.false_eq_true, if_false] at h
    by_cases c2 : (pyTruthyOpt (lookupL opps1 k) && pyTruthyOpt (lookupL opps2 k)) = true
    · simp only [c2, if_true] at h
      by_cases c3 : (pdIsna (pyGetD ((lookupL opps1 k).getD .vnull) kStart .vnull) &&
          pdIsna (pyGetD ((lookupL opps2 k).getD .vnull) kStart .vnull) &&
          pdIsna (pyGetD ((lookupL opps1 k).getD .vnull) kDuration .vnull) &&
          pdIsna (pyGetD ((lookupL opps2 k).getD .vnull) kDuration .vnull)) = true
      · simp only [c3, if_true] at h
        exact absurd h (by simp)
      · have c3f := Bool.eq_false_iff.mpr c3
        simp only [c3f, Bool.false_eq_true, if_false] at h
        obtain ⟨fs, hfs⟩ := isDict_exists _
          (deep_annotate_isDict ((lookupL opps1 k).getD .vnull)
            ((lookupL opps2 k).getD .vnull) none)
        have hann : annOkFields fs = true := by
          have ha := annOk_deep_annotate ((lookupL opps1 k).getD .vnull)
            ((lookupL opps2 k).getD .vnull) none
          rw [hfs] at ha
          exact ha
        have h1 : outAnnOkF fs = true := annOk_to_outAnnOk fs hann
        rw [hfs] at h
        by_cases c4 : check_for_differences
            (setKeyV (.vdict fs) kId
              (pickId ((lookupL opps1 k).getD .vnull) ((lookupL opps2 k).getD .vnull))) = true
        · simp only [c4, if_true, Option.some.injEq] at h
          subst h
          constructor
          · exact outAnnOk_to_outKeysOk _
              (outAnnOkF_setKey_special _ _ _ (by decide)
                (outAnnOkF_setKey_special _ _ _ (by decide)
                  (outAnnOkF_setKey_special _ _ _ (by decide) h1)))
          · intro _ _
            exact outAnnOkF_setKey_special _ _ _ (by decide)
              (outAnnOkF_setKey_special _ _ _ (by decide)
                (outAnnOkF_setKey_special _ _ _ (by decide) h1))
        · have c4f := Bool.eq_false_iff.mpr c4
          simp only [c4f, Bool.false_eq_true, if_false, Option.some.injEq] at h
          subst h
          constructor
          · exact outAnnOk_to_outKeysOk _
              (outAnnOkF_setKey_special _ _ _ (by decide)
                (outAnnOkF_setKey_special _ _ _ (by decide) h1))
          · intro _ _
            exact outAnnOkF_setKey_special _ _ _ (by decide)
              (outAnnOkF_setKey_special _ _ _ (by decide) h1)
    · have c2f := Bool.eq_false_iff.mpr c2
      simp only [c2f, Bool.false_eq_true, if_false] at h
      by_cases c5 : pyTruthyOpt (lookupL opps1 k) = true
      · simp only [c5, if_true, Option.some.injEq] at h
        subst h
        refine ⟨mkStatusRecord_keys_ok _ _ _ _ (filter_excluded_keys_ok _), ?_⟩
        intro ht1 ht2
        rw [ht1, ht2] at c2f
        simp at c2f
      · have c5f := Bool.eq_false_iff.mpr c5
        simp only [c5f, Bool.false_eq_true, if_false] at h
        by_cases c6 : pyTruthyOpt (lookupL opps2 k) = true
        · simp only [c6, if_true, Option.some.injEq] at h
          subst h
          refine ⟨mkStatusRecord_keys_ok _ _ _ _ (filter_excluded_keys_ok _), ?_⟩
          intro ht1 _
          rw [ht1] at c5f
          simp at c5f
        · have c6f := Bool.eq_false_iff.mpr c6
          simp only [c6f, Bool.false_eq_true, if_false] at h
          exact absurd h (by simp)

/-- Witness for `c6_exclusion_policy` at a concrete input. -/
theorem c6_witness :
    processKey (selectOpps dataC6 ("2025-06-01")) (selectOpps dataC6 ("2025-06-07"))
        ("2025-06-01") ("2025-06-07") ("A__P") =
      some (mkStatusRecord (.vstr ("")) ("Deleted")
        ("This opportunity was present in 2025-06-01 but removed in 2025-06-07")
        (filter_excluded_fields opp6)) ∧
    outKeysOk (mkStatusRecord (.vstr ("")) ("Deleted")
      ("This opportunity was present in 2025-06-01 but removed in 2025-06-07")
      (filter_excluded_fields opp6)) = true :=
  ⟨by decide,
   (c6_exclusion_policy (selectOpps dataC6 ("2025-06-01")) (selectOpps dataC6 ("2025-06-07"))
     ("2025-06-01") ("2025-06-07") ("A__P") _ (by decide)).1⟩

/-- Counterexample to C6: a Deleted record keeps nested containers intact,
so the excluded name `foo_id` appears at depth in the diff output (only the
top level is filtered). -/
theorem c6_counterexample :
    should_exclude_field ("foo_id") = true ∧
    (compare_forecast_entries dataC6 ("2025-06-01") ("2025-06-07")).any recordHasExcl = true :=
  ⟨by decide, by decide⟩

theorem containsKeyF_of_mem : ∀ (fs : ValFields) (k : String) (v : Val),
    (k, v) ∈ vfToList fs → containsKeyF fs k = true
  | .nil, _, _, hm => by simp [vfToList] at hm
  | .cons k1 w rest, k, v, hm => by
      simp only [vfToList, List.mem_cons] at hm
      rcases hm with he | hm
      · obtain ⟨rfl, rfl⟩ := Prod.mk.injEq .. ▸ he
        simp [containsKeyF]
      · simp [containsKeyF, containsKeyF_of_mem rest k v hm]

theorem getF_some_mem : ∀ (fs : ValFields) (k : String) (v : Val),
    getF fs k = some v → (k, v) ∈ vfToList fs
  | .nil, _, _, hg => by simp [getF] at hg
  | .cons k1 w rest, k, v, hg => by
      unfold getF at hg
      by_cases hk : (k1 == k) = true
      · rw [hk] at hg
        simp only [if_true, Option.some.injEq] at hg
        subst hg
        have he : k1 = k := eq_of_beq hk
        subst he
        simp [vfToList]
      · have hk2 := Bool.eq_false_iff.mpr hk
        rw [hk2] at hg
        simp only [Bool.false_eq_true, if_false] at hg
        simp [vfToList, getF_some_mem rest k v hg]

theorem getF_mem_nodup : ∀ (fs : ValFields) (k : String) (v : Val),
    nodupKeysB fs = true → (k, v) ∈ vfToList fs → getF fs k = some v
  | .nil, _, _, _, hm => by simp [vfToList] at hm
  | .cons k1 w rest, k, v, hnd, hm => by
      simp only [nodupKeysB, Bool.and_eq_true, Bool.not_eq_true'] at hnd
      simp only [vfToList, List.mem_cons] at hm
      rcases hm with he | hm
      · obtain ⟨rfl, rfl⟩ := Prod.mk.injEq .. ▸ he
        simp [getF]
      · have hkne : (k1 == k) = false := by
          by_cases he : k1 = k
          · subst he
            exact absurd (containsKeyF_of_mem rest k1 v hm) (by simp [hnd.1])
          · simp [he]
        simp [getF, hkne, getF_mem_nodup rest k v hnd.2 hm]

theorem wfFields_mem : ∀ (fs : ValFields) (k : String) (v : Val),
    wfFields fs = true → (k, v) ∈ vfToList fs → wfVal v = true
  | .nil, _, _, _, hm => by simp [vfToList] at hm
  | .cons k1 w rest, k, v, hwf, hm => by
      simp only [wfFields, Bool.and_eq_true] at hwf
      simp only [vfToList, List.mem_cons] at hm
      rcases hm with he | hm
      · obtain ⟨rfl, rfl⟩ := Prod.mk.injEq .. ▸ he
        exact hwf.1
      · exact wfFields_mem rest k v hwf.2 hm

theorem wf_pyGetD (o : Val) (k : String) (h : wfVal o = true) :
    wfVal (pyGetD o k .vnull) = true := by
  cases o with
  | vdict fs =>
      simp only [wfVal, Bool.and_eq_true] at h
      show wfVal (getFD fs k .vnull) = true
      cases hg : getF fs k with
      | none => simp [getFD, hg, wfVal]
      | some v =>
          simp only [getFD, hg]
          exact wfFields_mem fs k v h.2 (getF_some_mem fs k v hg)
  | vnull => rfl
  | vnan => rfl
  | vstr s => rfl
  | vint n => rfl
  | vlist xs => rfl

theorem containsKeyF_of_keys_mem : ∀ (fs : ValFields) (k : String),
    k ∈ keysF fs → containsKeyF fs k = true
  | .nil, _, hm => by simp [keysF] at hm
  | .cons k1 w rest, k, hm => by
      simp only [keysF, List.mem_cons] at hm
      rcases hm with rfl | hm
      · simp [containsKeyF]
      · simp [containsKeyF, containsKeyF_of_keys_mem rest k hm]

theorem keysSubF_of : ∀ (sub fs0 : ValFields),
    (∀ k ∈ keysF sub, containsKeyF fs0 k = true) → keysSubF sub fs0 = true
  | .nil, _, _ => rfl
  | .cons k w rest, fs0, h => by
      simp only [keysSubF, Bool.and_eq_true]
      exact ⟨h k (by simp [keysF]), keysSubF_of rest fs0
        (fun k2 hk2 => h k2 (by simp [keysF, hk2]))⟩

mutual

theorem pyEq_refl : ∀ (v : Val), wfVal v = true → pyEq v v = true
  | .vnull, _ => rfl
  | .vnan, h => by simp [wfVal] at h
  | .vstr s, _ => by simp [pyEq]
  | .vint n, _ => by simp [pyEq]
  | .vlist xs, h => by
      show pyEqList xs xs = true
      exact pyEqList_refl xs h
  | .vdict fs, h => by
      have h2 := h
      simp only [wfVal, Bool.and_eq_true] at h2
      show (pyEqFieldsSub fs fs && keysSubF fs fs) = true
      rw [pyEqFieldsSub_self fs fs h2.2
        (fun k v hm => getF_mem_nodup fs k v h2.1.1 hm)]
      rw [keysSubF_of fs fs (fun k hk => containsKeyF_of_keys_mem fs k hk)]
      rfl
termination_by v _ => sizeOf v

theorem pyEqList_refl : ∀ (xs : ValList), wfList xs = true → pyEqList xs xs = true
  | .nil, _ => rfl
  | .cons x rest, h => by
      simp only [wfList, Bool.and_eq_true] at h
      simp only [pyEqList, Bool.and_eq_true]
      exact ⟨pyEq_refl x h.1, pyEqList_refl rest h.2⟩
termination_by xs _ => sizeOf xs

theorem pyEqFieldsSub_self : ∀ (sub fs0 : ValFields), wfFields sub = true →
    (∀ k v, (k, v) ∈ vfToList sub → getF fs0 k = some v) →
    pyEqFieldsSub sub fs0 = true
  | .nil, _, _, _ => rfl
  | .cons k v rest, fs0, hwf, hag => by
      simp only [wfFields, Bool.and_eq_true] at hwf
      have hg : getF fs0 k = some v := hag k v (by simp [vfToList])
      unfold pyEqFieldsSub
      rw [hg]
      simp only [Bool.and_eq_true]
      exact ⟨pyEq_refl v hwf.1,
        pyEqFieldsSub_self rest fs0 hwf.2 (fun k2 v2 hm => hag k2 v2 (by simp [vfToList, hm]))⟩
termination_by sub _ _ _ => sizeOf sub

end

mutual

theorem checkDiffs_wf : ∀ (v : Val), wfVal v = true → check_for_differences v = false
  | .vnull, _ => rfl
  | .vnan, h => by simp [wfVal] at h
  | .vstr s, _ => rfl
  | .vint n, _ => rfl
  | .vlist xs, h => by
      show checkDiffList xs = false
      exact checkDiffList_wf xs h
  | .vdict fs, h => by
      have h2 := h
      simp only [wfVal, Bool.and_eq_true, Bool.not_eq_true'] at h2
      unfold check_for_differences
      rw [h2.1.2]
      simp only [Bool.false_eq_true, if_false]
      exact checkDiffFields_wf fs h2.2
termination_by v _ => sizeOf v

theorem checkDiffList_wf : ∀ (xs : ValList), wfList xs = true → checkDiffList xs = false
  | .nil, _ => rfl
  | .cons x rest, h => by
      simp only [wfList, Bool.and_eq_true] at h
      simp only [checkDiffList, Bool.or_eq_false_iff]
      exact ⟨checkDiffs_wf x h.1, checkDiffList_wf rest h.2⟩
termination_by xs _ => sizeOf xs

theorem checkDiffFields_wf : ∀ (fs : ValFields), wfFields fs = true → checkDiffFields fs = false
  | .nil, _ => rfl
  | .cons k v rest, h => by
      simp only [wfFields, Bool.and_eq_true] at h
      simp only [checkDiffFields, Bool.or_eq_false_iff]
      exact ⟨checkDiffs_wf v h.1, checkDiffFields_wf rest h.2⟩
termination_by fs _ => sizeOf fs

end

theorem check_vdict_false (fs : ValFields) (h : check_for_differences (.vdict fs) = false) :
    (containsKeyF fs kOldest && containsKeyF fs kNewest) = false ∧
    checkDiffFields fs = false := by
  unfold check_for_differences at h
  by_cases hp : (containsKeyF fs kOldest && containsKeyF fs kNewest) = true
  · rw [hp] at h
    simp at h
  · have hp2 := Bool.eq_false_iff.mpr hp
    rw [hp2] at h
    simp only [Bool.false_eq_true, if_false] at h
    exact ⟨hp2, h⟩

theorem containsKeyF_setKeyF : ∀ (fs : ValFields) (k k2 : String) (v : Val),
    containsKeyF (setKeyF fs k v) k2 = (containsKeyF fs k2 || (k == k2))
  | .nil, k, k2, v => by simp [setKeyF, containsKeyF]
  | .cons k1 w rest, k, k2, v => by
      unfold setKeyF
      by_cases hk : (k1 == k) = true
      · have he : k1 = k := eq_of_beq hk
        subst he
        simp only [if_true, hk]
        cases hkk : (k1 == k2) <;> cases hc : containsKeyF rest k2 <;>
          simp [containsKeyF, hkk, hc]
      · have hk2 := Bool.eq_false_iff.mpr hk
        simp only [hk2, Bool.false_eq_true, if_false, containsKeyF,
          containsKeyF_setKeyF rest k k2 v, Bool.or_assoc]

theorem checkDiffFields_setKeyF : ∀ (fs : ValFields) (k : String) (w : Val),
    checkDiffFields fs = false → check_for_differences w = false →
    checkDiffFields (setKeyF fs k w) = false
  | .nil, k, w, _, hw => by simp [setKeyF, checkDiffFields, hw]
  | .cons k1 v rest, k, w, hf, hw => by
      simp only [checkDiffFields, Bool.or_eq_false_iff] at hf
      unfold setKeyF
      by_cases hk : (k1 == k) = true
      · rw [hk]
        simp only [if_true, checkDiffFields, Bool.or_eq_false_iff]
        exact ⟨hw, hf.2⟩
      · have hk2 := Bool.eq_false_iff.mpr hk
        rw [hk2]
        simp only [Bool.false_eq_true, if_false, checkDiffFields, Bool.or_eq_false_iff]
        exact ⟨hf.1, checkDiffFields_setKeyF rest k w hf.2 hw⟩

theorem getF_setKeyF_self : ∀ (fs : ValFields) (k : String) (v : Val),
    getF (setKeyF fs k v) k = some v
  | .nil, k, v => by simp [setKeyF, getF]
  | .cons k1 w rest, k, v => by
      unfold setKeyF
      by_cases hk : (k1 == k) = true
      · rw [hk]
        simp only [if_true, getF, hk]
      · have hk2 := Bool.eq_false_iff.mpr hk
        rw [hk2]
        simp only [Bool.false_eq_true, if_false, getF, hk2]
        exact getF_setKeyF_self rest k v

theorem check_setKeyV_dict (fs : ValFields) (k : String) (w : Val)
    (hk1 : (k == kOldest) = false) (hk2 : (k == kNewest) = false)
    (h : check_for_differences (.vdict fs) = false)
    (hw : check_for_differences w = false) :
    check_for_differences (setKeyV (.vdict fs) k w) = false := by
  obtain ⟨hp, hf⟩ := check_vdict_false fs h
  show check_for_differences (.vdict (setKeyF fs k w)) = false
  unfold check_for_differences
  have hpair : (containsKeyF (setKeyF fs k w) kOldest &&
      containsKeyF (setKeyF fs k w) kNewest) = false := by
    rw [containsKeyF_setKeyF, containsKeyF_setKeyF, hk1, hk2]
    simp only [Bool.or_false]
    exact hp
  rw [hpair]
  simp only [Bool.false_eq_true, if_false]
  exact checkDiffFields_setKeyF fs k w hf hw

theorem check_mkValue (v : Val) :
    check_for_differences (mkValue v) = check_for_differences v := by
  simp [mkValue, check_for_differences, checkDiffFields, containsKeyF,
    kValue, kOldest, kNewest]

theorem appendF_nil : ∀ a : ValFields, appendF a .nil = a
  | .nil => rfl
  | .cons k v rest => by simp [appendF, appendF_nil rest]

theorem annFields2_all_contained : ∀ (gs fs : ValFields) (seen : List String),
    (∀ kk ∈ keysF gs, containsKeyF fs kk = true) → annFields2 gs fs seen = .nil
  | .nil, _, _, _ => rfl
  | .cons k v rest, fs, seen, h => by
      have hc : containsKeyF fs k = true := h k (by simp [keysF])
      have hcond : (seen.contains k || containsKeyF fs k || should_exclude_field k) = true := by
        rw [hc]
        simp
      unfold annFields2
      rw [hcond]
      simp only [if_true]
      exact annFields2_all_contained rest fs (k :: seen)
        (fun kk hk => h kk (by simp [keysF, hk]))

theorem annFields1_contains_sub (fs1 fs2 : ValFields) (seen : List String) (k2 : String)
    (h : containsKeyF (annFields1 fs1 fs2 seen) k2 = true) :
    containsKeyF fs1 k2 = true := by
  by_cases hc : containsKeyF fs1 k2 = true
  · exact hc
  · have hc2 := Bool.eq_false_iff.mpr hc
    rw [annFields1_not_contains fs1 fs2 seen k2 hc2] at h
    exact absurd h (by simp)

mutual

theorem checkDiffs_da_self : ∀ (v : Val) (key : Option String), wfVal v = true →
    check_for_differences (deep_annotate v v key) = false
  | .vnull, key, _ => by
      rw [deep_annotate_null_left]
      unfold annNullLeft
      by_cases hsd : sdKey key = true <;>
        simp [hsd, pdIsna, is_empty, check_mkValue, check_for_differences]
  | .vnan, key, h => by simp [wfVal] at h
  | .vstr s, key, h => by
      by_cases hsd : sdKey key = true
      · unfold deep_annotate
        simp [hsd, pdIsna, pyEq, check_mkValue, check_for_differences]
      · have hsd2 := Bool.eq_false_iff.mpr hsd
        unfold deep_annotate
        simp only [hsd2, Bool.false_eq_true, if_false]
        by_cases hb : isBlank s = true
        · simp [is_empty, hb, check_mkValue, check_for_differences]
        · have hb2 := Bool.eq_false_iff.mpr hb
          simp [is_empty, hb2, annotate_diff, pyEq, check_mkValue, check_for_differences]
  | .vint m, key, h => by
      by_cases hsd : sdKey key = true
      · unfold deep_annotate
        simp [hsd, pdIsna, pyEq, check_mkValue, check_for_differences]
      · have hsd2 := Bool.eq_false_iff.mpr hsd
        unfold deep_annotate
        simp [hsd2, is_empty, annotate_diff, pyEq, check_mkValue, check_for_differences]
  | .vlist xs, key, h => by
      have hpe := pyEq_refl (.vlist xs) h
      by_cases hsd : sdKey key = true
      · unfold deep_annotate
        simp [hsd, pdIsna, hpe, check_mkValue, checkDiffs_wf (Val.vlist xs) h]
      · have hsd2 := Bool.eq_false_iff.mpr hsd
        by_cases he : is_empty (Val.vlist xs) = true
        · unfold deep_annotate
          simp [hsd2, he, check_mkValue, check_for_differences]
        · have he2 := Bool.eq_false_iff.mpr he
          unfold deep_annotate
          simp only [hsd2, Bool.false_eq_true, if_false, he2, Bool.and_self]
          show check_for_differences (mkValue (.vlist (annotateList xs xs))) = false
          rw [check_mkValue]
          show checkDiffList (annotateList xs xs) = false
          exact checkList_annotateList_self xs h
  | .vdict fs, key, h => by
      have hpe := pyEq_refl (.vdict fs) h
      have h2 := h
      simp only [wfVal, Bool.and_eq_true, Bool.not_eq_true'] at h2
      by_cases hsd : sdKey key = true
      · unfold deep_annotate
        simp [hsd, pdIsna, hpe, check_mkValue, checkDiffs_wf (Val.vdict fs) h]
      · have hsd2 := Bool.eq_false_iff.mpr hsd
        by_cases he : is_empty (Val.vdict fs) = true
        · unfold deep_annotate
          simp [hsd2, he, check_mkValue, check_for_differences]
        · have he2 := Bool.eq_false_iff.mpr he
          unfold deep_annotate
          simp only [hsd2, Bool.false_eq_true, if_false, he2, Bool.and_self]
          show check_for_differences
            (.vdict (appendF (annFields1 fs fs []) (annFields2 fs fs []))) = false
          rw [annFields2_all_contained fs fs []
            (fun kk hk => containsKeyF_of_keys_mem fs kk hk), appendF_nil]
          unfold check_for_differences
          have hpair : (containsKeyF (annFields1 fs fs []) kOldest &&
              containsKeyF (annFields1 fs fs []) kNewest) = false := by
            by_cases ho : containsKeyF (annFields1 fs fs []) kOldest = true
            · by_cases hn : containsKeyF (annFields1 fs fs []) kNewest = true
              · have hfo := annFields1_contains_sub fs fs [] kOldest ho
                have hfn := annFields1_contains_sub fs fs [] kNewest hn
                rw [hfo, hfn] at h2
                simp at h2
              · rw [Bool.eq_false_iff.mpr hn]
                simp
            · rw [Bool.eq_false_iff.mpr ho]
              simp
          rw [hpair]
          simp only [Bool.false_eq_true, if_false]
          exact checkFields_annFields1_self fs fs [] h2.2
            (fun k v hm => ⟨by simp [getFD, getF_mem_nodup fs k v h2.1.1 hm],
              wfFields_mem fs k v h2.2 hm⟩)
termination_by v _ _ => sizeOf v

theorem checkFields_annFields1_self : ∀ (fs fs0 : ValFields) (seen : List String),
    wfFields fs = true →
    (∀ k v, (k, v) ∈ vfToList fs → getFD fs0 k .vnull = v ∧ wfVal v = true) →
    checkDiffFields (annFields1 fs fs0 seen) = false
  | .nil, _, _, _, _ => rfl
  | .cons k v rest, fs0, seen, hwf, hag => by
      simp only [wfFields, Bool.and_eq_true] at hwf
      unfold annFields1
      by_cases hskip : (seen.contains k || should_exclude_field k) = true
      · rw [hskip]
        simp only [if_true]
        exact checkFields_annFields1_self rest fs0 (k :: seen) hwf.2
          (fun k2 v2 hm => hag k2 v2 (by simp [vfToList, hm]))
      · rw [Bool.eq_false_iff.mpr hskip]
        simp only [Bool.false_eq_true, if_false, checkDiffFields, Bool.or_eq_false_iff]
        have hgv := (hag k v (by simp [vfToList])).1
        constructor
        · rw [hgv]
          exact checkDiffs_da_self v (some k) hwf.1
        · exact checkFields_annFields1_self rest fs0 (k :: seen) hwf.2
            (fun k2 v2 hm => hag k2 v2 (by simp [vfToList, hm]))
termination_by fs _ _ _ _ => sizeOf fs

theorem checkList_annotateList_self : ∀ (xs : ValList), wfList xs = true →
    checkDiffList (annotateList xs xs) = false
  | .nil, _ => rfl
  | .cons x rest, h => by
      simp only [wfList, Bool.and_eq_true] at h
      unfold annotateList
      simp only [checkDiffList, Bool.or_eq_false_iff]
      exact ⟨checkDiffs_da_self x none h.1, checkList_annotateList_self rest h.2⟩
termination_by xs _ => sizeOf xs

end

theorem processKey_self (opps : List (String × Val)) (d1 d2 : String)
    (hvals : ∀ k o, lookupL opps k = some o → wfVal o = true) (k : String) :
    (selfSkip opps k = true → processKey opps opps d1 d2 k = none) ∧
    (selfSkip opps k = false → ∃ rec, processKey opps opps d1 d2 k = some rec ∧
       pyGetD rec kStatus .vnull = .vstr ("Unchanged")) := by
  cases hlk : lookupL opps k with
  | none =>
      constructor
      · intro _
        unfold processKey
        rw [hlk]
        rfl
      · intro hss
        simp [selfSkip, hlk] at hss
  | some o =>
      have hwo := hvals k o hlk
      by_cases ht : pyTruthy o = true
      · by_cases htv : pyEq (pyGetD o kTotalValue .vnull) (.vstr ("0")) = true
        · constructor
          · intro _
            unfold processKey
            rw [hlk]
            simp [pyTruthyOpt, ht, oGetD, htv]
          · intro hss
            unfold selfSkip at hss
            rw [hlk] at hss
            simp [htv] at hss
        · have htv2 := Bool.eq_false_iff.mpr htv
          by_cases hna : (pdIsna (pyGetD o kStart .vnull) &&
              pdIsna (pyGetD o kDuration .vnull)) = true
          · obtain ⟨hs, hd⟩ : pdIsna (pyGetD o kStart .vnull) = true ∧
                pdIsna (pyGetD o kDuration .vnull) = true := by simpa using hna
            constructor
            · intro _
              unfold processKey
              rw [hlk]
              simp [pyTruthyOpt, ht, oGetD, htv2, hs, hd]
            · intro hss
              unfold selfSkip at hss
              rw [hlk] at hss
              simp [hs, hd] at hss
          · have hna2 := Bool.eq_false_iff.mpr hna
            constructor
            · intro hss
              unfold selfSkip at hss
              rw [hlk] at hss
              simp [ht, htv2, hna2] at hss
            · intro _
              obtain ⟨fs, hfs⟩ := isDict_exists _ (deep_annotate_isDict o o none)
              have hcheck : check_for_differences (deep_annotate o o none) = false :=
                checkDiffs_da_self o none hwo
              have hidv : check_for_differences (pickId o o) = false := by
                unfold pickId
                by_cases hco : containsKeyV o kId = true
                · simp [hco, checkDiffs_wf _ (wf_pyGetD o kId hwo)]
                · have hco2 := Bool.eq_false_iff.mpr hco
                  simp only [hco2, Bool.false_eq_true, if_false]
                  rfl
              have hc4 : check_for_differences
                  (setKeyV (deep_annotate o o none) kId (pickId o o)) = false := by
                rw [hfs]
                exact check_setKeyV_dict fs kId (pickId o o) (by decide) (by decide)
                  (hfs ▸ hcheck) hidv
              have hc1 : (pyTruthyOpt (some o) &&
                  pyEq (oGetD (some o) kTotalValue .vnull) (.vstr ("0"))) = false := by
                simp [pyTruthyOpt, oGetD, htv2]
              have hc2 : (pyTruthyOpt (some o) && pyTruthyOpt (some o)) = true := by
                simp [pyTruthyOpt, ht]
              have hc3 : (pdIsna (pyGetD o kStart .vnull) &&
                  pdIsna (pyGetD o kStart .vnull) &&
                  pdIsna (pyGetD o kDuration .vnull) &&
                  pdIsna (pyGetD o kDuration .vnull)) = false := by
                cases ha : pdIsna (pyGetD o kStart .vnull) <;>
                  cases hb : pdIsna (pyGetD o kDuration .vnull) <;>
                    simp_all
              refine ⟨setKeyV (setKeyV (deep_annotate o o none) kId (pickId o o))
                kStatus (.vstr ("Unchanged")), ?_, ?_⟩
              · unfold processKey
                rw [hlk]
                simp only [Option.getD_some, hc1, Bool.false_eq_true, if_false, hc2,
                  if_true, hc3, hc4]
              · rw [hfs]
                show pyGetD (.vdict (setKeyF (setKeyF fs kId (pickId o o)) kStatus
                  (.vstr ("Unchanged")))) kStatus .vnull = .vstr ("Unchanged")
                simp [pyGetD, getFD, getF_setKeyF_self]
      · have ht2 := Bool.eq_false_iff.mpr ht
        constructor
        · intro _
          unfold processKey
          rw [hlk]
          simp [pyTruthyOpt, ht2]
        · intro hss
          unfold selfSkip at hss
          rw [hlk] at hss
          simp [ht2] at hss

theorem lookupL_setKeyL : ∀ (acc : List (String × Val)) (key k : String) (v o : Val),
    lookupL (setKeyL acc key v) k = some o → o = v ∨ lookupL acc k = some o
  | [], key, k, v, o, h => by
      unfold setKeyL lookupL at h
      by_cases hk : (key == k) = true
      · rw [hk] at h
        simp only [if_true, Option.some.injEq] at h
        exact Or.inl h.symm
      · rw [Bool.eq_false_iff.mpr hk] at h
        simp [lookupL] at h
  | (k1, w) :: rest, key, k, v, o, h => by
      unfold setKeyL at h
      by_cases hk : (k1 == key) = true
      · rw [hk] at h
        simp only [if_true] at h
        unfold lookupL at h ⊢
        by_cases hky : (k1 == k) = true
        · rw [hky] at h
          simp only [if_true, Option.some.injEq] at h
          exact Or.inl h.symm
        · rw [Bool.eq_false_iff.mpr hky] at h ⊢
          simp only [Bool.false_eq_true, if_false] at h ⊢
          exact Or.inr h
      · rw [Bool.eq_false_iff.mpr hk] at h
        simp only [Bool.false_eq_true, if_false] at h
        unfold lookupL at h ⊢
        by_cases hky : (k1 == k) = true
        · rw [hky] at h ⊢
          simp only [if_true] at h ⊢
          exact Or.inr h
        · rw [Bool.eq_false_iff.mpr hky] at h ⊢
          simp only [Bool.false_eq_true, if_false] at h ⊢
          exact lookupL_setKeyL rest key k v o h

theorem foldl_setKeyL_lookup (P : Val → Prop) :
    ∀ (L : List Val) (acc : List (String × Val)),
      (∀ k o, lookupL acc k = some o → P o) → (∀ x ∈ L, P x) →
      ∀ k o, lookupL (L.foldl
          (fun a opp => setKeyL a (create_composite_key opp) opp) acc) k = some o → P o
  | [], acc, hacc, _, k, o, h => hacc k o h
  | x :: rest, acc, hacc, hL, k, o, h => by
      have hacc2 : ∀ k2 o2,
          lookupL (setKeyL acc (create_composite_key x) x) k2 = some o2 → P o2 := by
        intro k2 o2 hh
        rcases lookupL_setKeyL acc (create_composite_key x) k2 x o2 hh with rfl | hh2
        · exact hL o2 (by simp)
        · exact hacc k2 o2 hh2
      exact foldl_setKeyL_lookup P rest (setKeyL acc (create_composite_key x) x) hacc2
        (fun y hy => hL y (by simp [hy])) k o h

theorem buildOpps_lookup_mem (S : List Val) (k : String) (o : Val)
    (h : lookupL (buildOpps S) k = some o) : o ∈ S :=
  foldl_setKeyL_lookup (fun v => v ∈ S) S []
    (fun k2 o2 hh => by simp [lookupL] at hh) (fun x hx => hx) k o h

theorem vlToList_vlOfList : ∀ l : List Val, vlToList (vlOfList l) = l
  | [] => rfl
  | x :: xs => by simp [vlOfList, vlToList, vlToList_vlOfList xs]

theorem selectOpps_mkPair_self (d1 d2 : String) (S : List Val) :
    selectOpps (mkPairData d1 d2 S S) d1 = buildOpps S ∧
    selectOpps (mkPairData d1 d2 S S) d2 = buildOpps S := by
  have hdf : kDate ≠ kForecast := by decide
  constructor
  · unfold selectOpps selectForecast mkPairData
    simp [pyGetD, getFD, getF, vfOfList, asListV, vlToList_vlOfList, hdf]
  · unfold selectOpps selectForecast mkPairData
    by_cases hd : (d1 == d2) = true
    · simp [pyGetD, getFD, getF, vfOfList, asListV, vlToList_vlOfList, hd, hdf]
    · simp [pyGetD, getFD, getF, vfOfList, asListV, vlToList_vlOfList,
        hd, Bool.eq_false_iff.mpr hd, hdf]

/-- Counterexample to C1: for the snapshot whose only record has Total Value
`"0"`, the self-diff output is empty — the record is missing from the
result, so the output filter does not return the full record set. -/
theorem c1_counterexample :
    dataC1cex = mkPairData ("2025-06-01") ("2025-06-07") [oppTV0] [oppTV0] ∧
    ([oppTV0] : List Val).length = 1 ∧
    compare_forecast_entries dataC1cex ("2025-06-01") ("2025-06-07") = [] :=
  ⟨rfl, rfl, by decide⟩

/-- C1 as amended: for a well-formed snapshot (no NaN, distinct keys in
every mapping, no mapping carrying both literal `oldest` and `newest`
keys), self-diffing classifies every returned record Unchanged and the
output filter prunes nothing; a key contributes no record exactly when the
per-key skip conditions fire (missing/falsy record, Total Value `"0"`, or
Start and Duration both pandas-missing). -/
theorem c1_self_diff (S : List Val) (d1 d2 : String) (hwf : S.all wfVal = true) :
    (∀ r ∈ compare_forecast_entries (mkPairData d1 d2 S S) d1 d2,
        pyGetD r kStatus .vnull = .vstr ("Unchanged")) ∧
    compare_forecast_entries (mkPairData d1 d2 S S) d1 d2 =
      (allKeysL (buildOpps S) (buildOpps S)).filterMap
        (processKey (buildOpps S) (buildOpps S) d1 d2) ∧
    (∀ k, processKey (buildOpps S) (buildOpps S) d1 d2 k = none ↔
        selfSkip (buildOpps S) k = true) := by
  have hmem : ∀ k o, lookupL (buildOpps S) k = some o → wfVal o = true := by
    intro k o h
    have hoS := buildOpps_lookup_mem S k o h
    exact (List.all_eq_true.mp hwf) o hoS
  have hpk := fun k => processKey_self (buildOpps S) d1 d2 hmem k
  have hstat : ∀ r ∈ (allKeysL (buildOpps S) (buildOpps S)).filterMap
      (processKey (buildOpps S) (buildOpps S) d1 d2),
      pyGetD r kStatus .vnull = .vstr ("Unchanged") := by
    intro r hr
    obtain ⟨k, hkmem, hk⟩ := List.mem_filterMap.mp hr
    by_cases hss : selfSkip (buildOpps S) k = true
    · rw [(hpk k).1 hss] at hk
      exact absurd hk (by simp)
    · obtain ⟨rec, hrec, hst⟩ := (hpk k).2 (Bool.eq_false_iff.mpr hss)
      rw [hrec] at hk
      obtain rfl : rec = r := by injection hk
      exact hst
  have hfilter : outputFilter ((allKeysL (buildOpps S) (buildOpps S)).filterMap
      (processKey (buildOpps S) (buildOpps S) d1 d2)) =
      (allKeysL (buildOpps S) (buildOpps S)).filterMap
        (processKey (buildOpps S) (buildOpps S) d1 d2) := by
    unfold outputFilter
    have hany : ((allKeysL (buildOpps S) (buildOpps S)).filterMap
        (processKey (buildOpps S) (buildOpps S) d1 d2)).any statusIsDiff = false := by
      rw [List.any_eq_false]
      intro r hr
      unfold statusIsDiff
      rw [hstat r hr]
      decide
    rw [hany]
    simp
  obtain ⟨hsel1, hsel2⟩ := selectOpps_mkPair_self d1 d2 S
  have hcomp : compare_forecast_entries (mkPairData d1 d2 S S) d1 d2 =
      (allKeysL (buildOpps S) (buildOpps S)).filterMap
        (processKey (buildOpps S) (buildOpps S) d1 d2) := by
    unfold compare_forecast_entries
    rw [hsel1, hsel2]
    exact hfilter
  refine ⟨?_, hcomp, ?_⟩
  · intro r hr
    rw [hcomp] at hr
    exact hstat r hr
  · intro k
    constructor
    · intro hnone
      by_contra hss
      obtain ⟨rec, hrec, _⟩ := (hpk k).2 (Bool.eq_false_iff.mpr hss)
      rw [hnone] at hrec
      exact absurd hrec (by simp)
    · intro hss
      exact (hpk k).1 hss

/-- Witness for `c1_self_diff` at a concrete input. -/
theorem c1_witness :
    collW1.all wfVal = true ∧
    (processKey (buildOpps collW1) (buildOpps collW1) ("2025-06-01") ("2025-06-07")
        ("A__P") = none ↔ selfSkip (buildOpps collW1) ("A__P") = true) :=
  ⟨by decide,
   (c1_self_diff collW1 ("2025-06-01") ("2025-06-07") (by decide)).2.2 ("A__P")⟩
